import Mathlib

/-!
Shallow embedding of the Mahaon parser core (parser_app): the crawl-job
orchestrator `parse_catalog`, the per-item ingestion loop
`parse_product_urls`, the catalog walker `fetch_catalog_page`, and the
storage gateway `save_to_db` / `update_session_status` /
`cleanup_incomplete`, translated from
src/parser_app/modules/data_parser.py, data_fetcher.py and db_write.py.

Python `None`-able values become `Option`, the SQLite tables become lists
of rows, the process-wide cancellation-flag map becomes a schedule
`Cancel : Nat → Bool` sampled at each `cancel_flags.get` read (the state
carries a tick counter), and Python exceptions become an `Except PyExc`
layer.  External collaborators (HTTP fetcher, HTML extractor, catalog
discovery, injected SQLite faults) are an `Env` of oracles.
-/

/-- Python exceptions distinguished by the handlers in data_parser.py. -/
inductive PyExc where
  | valueError
  | typeError
  | requestExc
  | sqliteErr
  | other
deriving Repr, DecidableEq

/-- modules/classes.py: `Variant`. -/
structure Variant where
  article_number : String
  variant_name : String
  is_available : Bool
  image_url : Option String
  image_path : Option String
  last_updated : Option String
deriving Repr, DecidableEq

/-- modules/classes.py: `Product` (fields of `to_dict` plus `variants`). -/
structure Product where
  url : String
  title : Option String
  price : Option String
  sostav : Option String
  ves_motka : Option String
  dlina_motka : Option String
  ves_upakovki : Option String
  image_url : Option String
  image_path : Option String
  category : Option String
  last_updated : Option String
  variants : List Variant
deriving Repr, DecidableEq

/-- A row of the `products` table (db_write.py, create_db). -/
structure ProductRow where
  id : Nat
  category : Option String
  title : Option String
  price : Option String
  sostav : Option String
  ves_motka : Option String
  dlina_motka : Option String
  ves_upakovki : Option String
  image_path : Option String
  url : String
  last_updated : Option String
  is_complete : Bool
deriving Repr, DecidableEq

/-- A row of the `variants` table (db_write.py, create_db); the surrogate
`id` column is never read by the modelled code and is omitted. -/
structure VariantRow where
  product_id : Nat
  article_number : String
  variant_name : String
  is_available : Bool
  image_path : Option String
  image_url : Option String
  last_updated : Option String
  is_complete : Bool
deriving Repr, DecidableEq

/-- data_parser.py hands `parse_product_urls` either a bare URL string or a
`(url, category)` tuple; the two dynamic shapes become two constructors. -/
inductive UrlItem where
  | bare (url : String)
  | withCat (url : String) (cat : String)
deriving Repr, DecidableEq

/-- A row of the `parse_sessions` table (timestamps omitted; the claims
never mention them). `INSERT OR REPLACE` semantics: the whole row is
overwritten on every status update. -/
structure SessionRow where
  session_id : String
  status : String
  product_urls : Option (List UrlItem)
  progress : Option String
  category_name : Option String
deriving Repr, DecidableEq

/-- The SQLite database: products, variants and parse_sessions tables. -/
structure Db where
  products : List ProductRow
  variants : List VariantRow
  sessions : List SessionRow
deriving Repr, DecidableEq

/-- Worker-visible state: the database, the tick counter indexing reads of
the cancellation-flag map, plus two observation logs — the product URLs
handed to `fetch_product_page` and the sequence of session-status writes
— used to state "no fetch happened" / "no transition happened" claims. -/
structure St where
  db : Db
  tick : Nat
  fetchLog : List String
  statusTrace : List (String × String)
deriving Repr, DecidableEq

/-- The per-session cancellation flag, as the sequence of values returned
by successive `cancel_flags.get(session_id, False)` reads. -/
def Cancel : Type := Nat → Bool

/-- One `cancel_flags.get` read under `cancel_lock`: sample the schedule
at the current tick and advance the tick. -/
def readCancel (c : Cancel) (st : St) : Bool × St :=
  (c st.tick, { st with tick := st.tick + 1 })

/-- One page of a catalog listing as the walker sees it: per `<tr>` row the
product URL extracted from the title cell (none when the cell or link is
missing), and whether a usable `pager-next` link exists. -/
structure CatalogPage where
  rows : List (Option String)
  next : Bool
deriving Repr, DecidableEq

/-- A catalog discovery entry from `fetch_categories`. -/
structure Category where
  name : String
  url : String
deriving Repr, DecidableEq

/-- Oracles for the external collaborators: `fetchProduct` is the outcome
of fetching+extracting one product page (a `Product`, or a raised
exception — per data_fetcher.py a fetched page always yields a `Product`,
the request-failure branch raises because of the zero-argument
`log_message()` call); `catalogChain` is the chain of catalog pages
reached by following pagination from a catalog URL (`none` = the page
failed to fetch or had no table/tbody); `categories` is the
`fetch_categories` result; `variantFails` marks variant rows on which
the bulk `executemany` insert raises `sqlite3.Error`. -/
structure Env where
  fetchProduct : String → Except PyExc Product
  catalogChain : String → List (Option CatalogPage)
  categories : List Category
  variantFails : VariantRow → Bool

/-- Python truthiness of an optional string (`if url:`). -/
def optTruthy : Option String → Bool
  | none => false
  | some s => s ≠ ""

/-- utilities.py: `normalize_image_path`. -/
def normalize_image_path : Option String → Option String
  | none => none
  | some p =>
    if p = "" then none
    else
      let p1 := (p.trim).dropWhile (fun ch => ch = '/')
      if (p1.splitOn "..").length > 1 then none
      else
        let p2 := p1.replace "static/static/images" "static/images"
        if ("static/images").isPrefixOf p2 then some p2
        else some (("static/images/" ++ p2).replace "\\" "/")

/-- db_write.py line 240: a record whose title is Python-falsy or the
sentinel is rejected. -/
def titleInvalid : Option String → Bool
  | none => true
  | some t => t = "" || t = "Не найдено"

/-- Next SQLite `INTEGER PRIMARY KEY` for the products table. -/
def nextProductId (db : Db) : Nat :=
  (db.products.map (fun r => r.id)).foldr Nat.max 0 + 1

/-- db_write.py step 4: `INSERT INTO products ... ON CONFLICT(url) DO
UPDATE`, with `is_complete = 1`. -/
def productUpsert (p : Product) (ip : Option String) (db : Db) : Db :=
  match db.products.find? (fun r => r.url = p.url) with
  | some _ =>
    { db with products := db.products.map (fun r =>
        if r.url = p.url then
          { r with category := p.category, title := p.title, price := p.price,
                   sostav := p.sostav, ves_motka := p.ves_motka,
                   dlina_motka := p.dlina_motka, ves_upakovki := p.ves_upakovki,
                   image_path := ip, last_updated := p.last_updated,
                   is_complete := true }
        else r) }
  | none =>
    { db with products := db.products ++
        [{ id := nextProductId db, category := p.category, title := p.title,
           price := p.price, sostav := p.sostav, ves_motka := p.ves_motka,
           dlina_motka := p.dlina_motka, ves_upakovki := p.ves_upakovki,
           image_path := ip, url := p.url, last_updated := p.last_updated,
           is_complete := true }] }

/-- db_write.py step 6: one prepared variant row (image path normalized,
then dropped unless it starts with static/images), `is_complete = 1`. -/
def prepVariant (pid : Nat) (v : Variant) : VariantRow :=
  let ip := match normalize_image_path v.image_path with
    | none => none
    | some s =>
      if s ≠ "" && !(("static/images").isPrefixOf s) then none else some s
  { product_id := pid, article_number := v.article_number,
    variant_name := v.variant_name, is_available := v.is_available,
    image_path := ip, image_url := v.image_url,
    last_updated := v.last_updated, is_complete := true }

/-- db_write.py step 6 loop: a `cancel_flags` read per variant; a set flag
aborts (`conn.rollback()`), otherwise all rows are prepared in order. -/
def prepVariantsLoop (c : Cancel) (pid : Nat) :
    List Variant → St → Option (List VariantRow) × St
  | [], st => (some [], st)
  | v :: vs, st =>
    let (cz, st1) := readCancel c st
    if cz then (none, st1)
    else
      match prepVariantsLoop c pid vs st1 with
      | (none, st2) => (none, st2)
      | (some rs, st2) => (some (prepVariant pid v :: rs), st2)

/-- `INSERT INTO variants ... ON CONFLICT(product_id, article_number,
variant_name) DO UPDATE` for one row. -/
def variantUpsert (v : VariantRow) (vars : List VariantRow) : List VariantRow :=
  if vars.any (fun w => w.product_id = v.product_id &&
      w.article_number = v.article_number && w.variant_name = v.variant_name)
  then vars.map (fun w =>
    if w.product_id = v.product_id && w.article_number = v.article_number &&
       w.variant_name = v.variant_name then
      { w with is_available := v.is_available, image_path := v.image_path,
               image_url := v.image_url, last_updated := v.last_updated,
               is_complete := true }
    else w)
  else vars ++ [v]

/-- db_write.py step 7: `cursor.executemany` over the prepared rows inside
the open transaction; a raising row aborts with `none` (the caller rolls
the whole transaction back), otherwise every row is upserted. -/
def execManyVariants (env : Env) :
    List VariantRow → List VariantRow → Option (List VariantRow)
  | [], vars => some vars
  | r :: rs, vars =>
    if env.variantFails r then none
    else execManyVariants env rs (variantUpsert r vars)

/-- db_write.py step 2: the product image path actually stored — the
normalized path, demoted to NULL when falsy. -/
def saveImagePath (p : Product) : Option String :=
  match normalize_image_path p.image_path with
  | none => none
  | some s => if s = "" then none else some s

/-- db_write.py: `save_to_db(product, variants, session_id, cancel_flags)`.
Returns the success flag and the post-state; every failure path performs
`conn.rollback()`, so the database component is left untouched there. -/
def save_to_db (env : Env) (c : Cancel) (p : Product) (vars : List Variant)
    (_sid : String) (st : St) : Bool × St :=
  let (cz, st1) := readCancel c st
  if cz then (false, st1)
  else
    let ip := saveImagePath p
    if titleInvalid p.title then (false, st1)
    else
      let db0 := st1.db
      let db1 := productUpsert p ip db0
      match db1.products.find? (fun r => r.url = p.url) with
      | none => (false, st1)
      | some row =>
        match prepVariantsLoop c row.id vars st1 with
        | (none, st2) => (false, st2)
        | (some rows, st2) =>
          if rows = [] then (true, { st2 with db := db1 })
          else
            match execManyVariants env rows db1.variants with
            | none => (false, st2)
            | some vt => (true, { st2 with db := { db1 with variants := vt } })

/-- db_write.py: `update_session_status` — `INSERT OR REPLACE` keyed by
session id; an empty url list is stored as NULL (`json.dumps(...) if
product_urls else None`). -/
def upsertSession (row : SessionRow) : List SessionRow → List SessionRow
  | [] => [row]
  | r :: rs =>
    if r.session_id = row.session_id then row :: rs
    else r :: upsertSession row rs

def update_session_status (sid status : String) (purls : Option (List UrlItem))
    (progress : Option String) (cname : Option String) (st : St) : St :=
  let row : SessionRow :=
    { session_id := sid, status := status,
      product_urls := (match purls with
        | some l => if l = [] then none else some l
        | none => none),
      progress := progress, category_name := cname }
  { st with db := { st.db with sessions := upsertSession row st.db.sessions },
            statusTrace := st.statusTrace ++ [(sid, status)] }

/-- db_write.py: `cleanup_incomplete` — `DELETE FROM products WHERE
is_complete = 0`, cascading to the deleted products' variants. -/
def cleanup_incomplete (st : St) : St :=
  let keep := st.db.products.filter (fun r => r.is_complete)
  let keptIds := keep.map (fun r => r.id)
  { st with db :=
      { st.db with
          products := keep,
          variants := st.db.variants.filter (fun v => v.product_id ∈ keptIds) } }

/-- The persisted status of a session. -/
def sessionStatus (sid : String) (db : Db) : Option String :=
  (db.sessions.find? (fun r => r.session_id = sid)).map (fun r => r.status)

/-- The persisted pending-url snapshot of a session. -/
def sessionPending (sid : String) (db : Db) : Option (Option (List UrlItem)) :=
  (db.sessions.find? (fun r => r.session_id = sid)).map (fun r => r.product_urls)

/-- Outcome dictionary of `parse_catalog` / `parse_product_urls`:
`success`, `products_processed`, `message`. -/
structure RunResult where
  success : Bool
  products_processed : Nat
  message : String
deriving Repr, DecidableEq

/-- data_fetcher.py: the row loop of `fetch_catalog_page` over one page.
A duplicate URL is skipped without touching the limit; a fresh URL is
appended and `len(product_urls) >= max_products` is then checked, a hit
returning immediately (`true` = early `return product_urls`). -/
def catalogRows (maxP : Option Int) :
    List (Option String) → List String → List String × Bool
  | [], acc => (acc, false)
  | none :: rest, acc => catalogRows maxP rest acc
  | some u :: rest, acc =>
    if u ∈ acc then catalogRows maxP rest acc
    else
      let acc1 := acc ++ [u]
      match maxP with
      | some n => if (acc1.length : Int) ≥ n then (acc1, true)
                  else catalogRows maxP rest acc1
      | none => catalogRows maxP rest acc1

/-- data_fetcher.py: the `while catalog_url:` loop of `fetch_catalog_page`
over the chain of pages the pagination links reach.  Per iteration: page
limit check, cancellation read, fetch (a `none` page = request error or
missing table/tbody → break), row loop (an empty row list → break), early
return on the product limit, else follow `pager-next`.  Returns the
collected URLs, the number of pages fetched, and the final tick. -/
def catalogWalk (c : Cancel) (maxPages maxP : Option Int) :
    List (Option CatalogPage) → List String → Nat → Nat →
    List String × Nat × Nat
  | [], acc, _, tick => (acc, 0, tick)
  | p? :: rest, acc, pageCount, tick =>
    if (match maxPages with
        | some m => decide ((pageCount : Int) ≥ m)
        | none => false) then (acc, 0, tick)
    else if c tick then (acc, 0, tick + 1)
    else
      match p? with
      | none => (acc, 1, tick + 1)
      | some pg =>
        if pg.rows = [] then (acc, 1, tick + 1)
        else
          let rb := catalogRows maxP pg.rows acc
          if rb.2 then (rb.1, 1, tick + 1)
          else if pg.next then
            let w := catalogWalk c maxPages maxP rest rb.1 (pageCount + 1) (tick + 1)
            (w.1, w.2.1 + 1, w.2.2)
          else (rb.1, 1, tick + 1)

/-- data_fetcher.py: `fetch_catalog_page` — entry cancellation check, then
the page loop. The category argument is only a label and is unused. -/
def fetch_catalog_page (env : Env) (c : Cancel) (catalog_url : String)
    (_category : Option String) (maxPages maxP : Option Int) (st : St) :
    List String × St :=
  let (cz, st1) := readCancel c st
  if cz then ([], st1)
  else
    let w := catalogWalk c maxPages maxP (env.catalogChain catalog_url) [] 0 st1.tick
    (w.1, { st1 with tick := w.2.2 })

/-- data_fetcher.py: `fetch_product_page` — entry cancellation check
(returns `None` when set), then fetch+extract via the oracle; a fetched
page always yields a `Product` whose category is the passed argument,
and a failed request raises (the except branch calls `log_message()`
with no arguments, a `TypeError`). The fetched URL is recorded in
`fetchLog`. -/
def fetch_product_page (env : Env) (c : Cancel) (url : String)
    (cat : Option String) (st : St) : Except PyExc (Option Product) × St :=
  let (cz, st1) := readCancel c st
  if cz then (.ok none, st1)
  else
    let st2 := { st1 with fetchLog := st1.fetchLog ++ [url] }
    match env.fetchProduct url with
    | .error e => (.error e, st2)
    | .ok p => (.ok (some { p with category := cat }), st2)

def itemUrl : UrlItem → String
  | .bare u => u
  | .withCat u _ => u

def itemCat (category : Option String) : UrlItem → Option String
  | .bare _ => category
  | .withCat _ c => some c

/-- data_parser.py: the `for item_url in product_urls:` loop of
`parse_product_urls`.  Per item: a cancellation read (a set flag returns
the accumulated result at once, flagged as an early return), then
fetch+extract; a `None` product or any raised exception marks
`success = False` and continues; a successful `save_to_db` increments
`products_processed`. -/
def parseUrlsLoop (env : Env) (c : Cancel) (category : Option String)
    (sid : String) : List UrlItem → RunResult → St → RunResult × Bool × St
  | [], acc, st => (acc, false, st)
  | item :: rest, acc, st =>
    let (cz, st1) := readCancel c st
    if cz then ({ acc with message := "Parsing canceled" }, true, st1)
    else
      let u := itemUrl item
      let (pr, st2) := fetch_product_page env c u (itemCat category item) st1
      match pr with
      | .error _ =>
        parseUrlsLoop env c category sid rest { acc with success := false } st2
      | .ok none =>
        parseUrlsLoop env c category sid rest { acc with success := false } st2
      | .ok (some p) =>
        let (ok, st3) := save_to_db env c p p.variants sid st2
        if ok then
          parseUrlsLoop env c category sid rest
            { acc with products_processed := acc.products_processed + 1 } st3
        else
          parseUrlsLoop env c category sid rest { acc with success := false } st3

/-- data_parser.py: `parse_product_urls` — input validation (an empty url
list or empty session id raises `ValueError`), the item loop, then the
summary message (skipped by the early cancelled return). -/
def parse_product_urls (env : Env) (c : Cancel) (items : List UrlItem)
    (category : Option String) (sid : String) (st : St) :
    Except PyExc (RunResult × St) :=
  if sid = "" then .error .valueError
  else if items = [] then .error .valueError
  else
    match parseUrlsLoop env c category sid items
        { success := true, products_processed := 0, message := "" } st with
    | (r, true, st1) => .ok (r, st1)
    | (r, false, st1) =>
      if r.products_processed = items.length && r.success then
        .ok ({ r with message := "Successfully processed products" }, st1)
      else
        .ok ({ r with message := "Processed products with errors" }, st1)

/-- Control flow of the `try:` body of `parse_catalog`: an early
`return result`, a fall-through to the final `if result["success"]:`
block, or a raised exception. -/
inductive BodyFlow where
  | ret (r : RunResult)
  | fall (r : RunResult)
  | exc (e : PyExc)
deriving Repr, DecidableEq

/-- Python `max_products - total_processed` on an optional int: `None`
minus an int raises `TypeError`. -/
def pySubOptInt : Option Int → Int → Except PyExc Int
  | none, _ => .error .typeError
  | some n, m => .ok (n - m)

/-- data_parser.py lines 250-288: the `for url in cat_urls:` loop of the
all-categories branch.  Each URL is ingested at once through a singleton
`parse_product_urls` call; afterwards, if the running success total
exceeds 5, the whole current category url list is persisted as pending
and the run pauses.  `Sum.inl` is an early exit of `parse_catalog`'s
body, `Sum.inr` the updated running total. -/
def allCatUrlsLoop (env : Env) (c : Cancel) (catName : String) (sid : String)
    (r0 : RunResult) (allUrls : List String) :
    List String → Nat → St → (BodyFlow × St) ⊕ (Nat × St)
  | [], total, st => .inr (total, st)
  | u :: rest, total, st =>
    match parse_product_urls env c [UrlItem.withCat u catName] (some catName) sid st with
    | .error e => .inl (.exc e, st)
    | .ok (pr, st1) =>
      let total1 := total + pr.products_processed
      if total1 > 5 then
        let st2 := update_session_status sid "awaiting_confirmation"
          (some (allUrls.map (fun u1 => UrlItem.withCat u1 catName)))
          (some "awaiting_confirmation") none st1
        .inl (.ret { r0 with products_processed := total1,
                             message := "Paused for confirmation" }, st2)
      else allCatUrlsLoop env c catName sid r0 allUrls rest total1 st1

/-- data_parser.py lines 212-294: the `for cat in categories:` loop.  Per
category: a cancellation read (a set flag returns early), the
`if max_products and total_processed >= max_products: break` check
(Python truthiness: `None` and `0` are falsy), the unguarded
`max_products - total_processed` subtraction (raising `TypeError` when
`max_products` is `None`), the walker, then the per-URL loop. -/
def allCatsLoop (env : Env) (c : Cancel) (maxPages maxP : Option Int)
    (sid : String) (r0 : RunResult) :
    List Category → Nat → St → BodyFlow × St
  | [], total, st =>
    (.fall { success := true, products_processed := total,
             message := "Successfully parsed products across all categories" }, st)
  | cat :: rest, total, st =>
    let (cz, st1) := readCancel c st
    if cz then
      (.ret { r0 with message := "Parsing canceled during category processing" }, st1)
    else if (match maxP with
             | some n => decide (n ≠ 0 ∧ (total : Int) ≥ n)
             | none => false) then
      (.fall { success := true, products_processed := total,
               message := "Successfully parsed products across all categories" }, st1)
    else
      match pySubOptInt maxP (total : Int) with
      | .error e => (.exc e, st1)
      | .ok rem =>
        let fc := fetch_catalog_page env c cat.url (some cat.name) maxPages (some rem) st1
        match allCatUrlsLoop env c cat.name sid r0 fc.1 fc.1 total fc.2 with
        | .inl (fl, st2) => (fl, st2)
        | .inr (total1, st2) => allCatsLoop env c maxPages maxP sid r0 rest total1 st2

/-- Python `category or "Unknown"` (data_parser.py line 107). -/
def defaultCategory : Option String → String
  | some s => if s = "" then "Unknown" else s
  | none => "Unknown"

/-- The `try:` body of `parse_catalog`: single-product branch when `url`
is truthy, single-catalog branch when `catalog_url` is truthy, else the
all-categories branch. -/
def parseCatalogBody (env : Env) (c : Cancel) (catalog_url : Option String)
    (category : Option String) (maxPages maxP : Option Int) (sid : String)
    (url : Option String) (r0 : RunResult) (st : St) : BodyFlow × St :=
  if optTruthy url then
    let u := url.getD ""
    let cat := defaultCategory category
    let (pr, st1) := fetch_product_page env c u (some cat) st
    match pr with
    | .ok none => (.ret { r0 with message := "Failed to parse product" }, st1)
    | .ok (some p) =>
      let (ok, st2) := save_to_db env c p p.variants sid st1
      if ok then
        (.fall { success := true, products_processed := 1,
                 message := "Successfully parsed and saved product" }, st2)
      else (.fall { r0 with message := "Error saving product" }, st2)
    | .error .requestExc =>
      (.fall { r0 with message := "Network error processing product" }, st1)
    | .error .sqliteErr =>
      (.fall { r0 with message := "Database error processing product" }, st1)
    | .error e => (.exc e, st1)
  else if optTruthy catalog_url then
    let fc := fetch_catalog_page env c (catalog_url.getD "") category maxPages maxP st
    if fc.1.length > 5 then
      let st1 := update_session_status sid "awaiting_confirmation"
        (some (fc.1.map UrlItem.bare)) (some "awaiting_confirmation") none fc.2
      (.ret { r0 with message := "Paused for confirmation" }, st1)
    else
      match parse_product_urls env c (fc.1.map UrlItem.bare) category sid fc.2 with
      | .error e => (.exc e, fc.2)
      | .ok (r, st1) => (.fall r, st1)
  else
    allCatsLoop env c maxPages maxP sid r0 env.categories 0 st

/-- data_parser.py: `parse_catalog` — validation (`ValueError` on an empty
session id propagates to the caller), the initial `in_progress` status
write, the entry cancellation check, the body, then either the final
`completed` write when `result["success"]` holds, or the exception
handlers: `RequestException`/`SQLiteError` only set the message, any
other exception sets the session to `error` and runs
`cleanup_incomplete`. -/
def parse_catalog (env : Env) (c : Cancel) (catalog_url : Option String)
    (category : Option String) (maxPages maxP : Option Int) (sid : String)
    (url : Option String) (st : St) : Except PyExc (RunResult × St) :=
  if sid = "" then .error .valueError
  else
    let st0 := update_session_status sid "in_progress" none (some "collecting_urls") none st
    let r0 : RunResult := { success := false, products_processed := 0, message := "" }
    let (cz, st1) := readCancel c st0
    if cz then .ok ({ r0 with message := "Parsing canceled" }, st1)
    else
      match parseCatalogBody env c catalog_url category maxPages maxP sid url r0 st1 with
      | (.ret r, st2) => .ok (r, st2)
      | (.fall r, st2) =>
        if r.success then
          .ok (r, update_session_status sid "completed" none (some "done") none st2)
        else .ok (r, st2)
      | (.exc .requestExc, st2) => .ok ({ r0 with message := "Network error" }, st2)
      | (.exc .sqliteErr, st2) => .ok ({ r0 with message := "Database error" }, st2)
      | (.exc _, st2) =>
        let st3 := cleanup_incomplete (update_session_status sid "error" none none none st2)
        .ok ({ r0 with message := "Unexpected error" }, st3)

/-- The URLs the Catalog Walker discovers for a catalog, cancellation
aside (the walker's result does not depend on the tick when the flag is
never set; see `catalogWalk_cancel_free`). -/
def walkerUrls (env : Env) (cu : String) (maxPages maxP : Option Int) : List String :=
  (catalogWalk (fun _ => false) maxPages maxP (env.catalogChain cu) [] 0 0).1

/-- The products-table id under which `save_to_db` stores `p`'s variants:
the id of the row holding `p.url` after the product upsert. -/
def savePid (p : Product) (db : Db) : Nat :=
  match (productUpsert p (saveImagePath p) db).products.find? (fun r => r.url = p.url) with
  | some r => r.id
  | none => 0

/-! ### Projections of a finished run, used to state concrete runs -/

def runStatus (sid : String) : Except PyExc (RunResult × St) → Option (Option String)
  | .ok out => some (sessionStatus sid out.2.db)
  | .error _ => none

def runSuccess : Except PyExc (RunResult × St) → Option Bool
  | .ok out => some out.1.success
  | .error _ => none

def runProcessed : Except PyExc (RunResult × St) → Option Nat
  | .ok out => some out.1.products_processed
  | .error _ => none

def runProductCount : Except PyExc (RunResult × St) → Option Nat
  | .ok out => some out.2.db.products.length
  | .error _ => none

def runFetchLog : Except PyExc (RunResult × St) → Option (List String)
  | .ok out => some out.2.fetchLog
  | .error _ => none

/-! ### Concrete fixtures for witnesses and counterexamples -/

/-- A product whose page parsed fine (valid title, no variants). -/
def prodOk (u : String) : Product :=
  { url := u, title := some ("T" ++ u), price := some "10", sostav := none,
    ves_motka := none, dlina_motka := none, ves_upakovki := none,
    image_url := none, image_path := none, category := none,
    last_updated := some "2025-05-06 12:00", variants := [] }

/-- A product from an unparsable page: the extractor fell back to the
sentinel title. -/
def prodBad (u : String) : Product :=
  { prodOk u with title := some "Не найдено" }

/-- The same URL as `prodOk "u"` with different field values. -/
def prodOk2 : Product :=
  { prodOk "u" with title := some "T2", price := some "99" }

/-- A variant fixture. -/
def mkVariant (a n : String) : Variant :=
  { article_number := a, variant_name := n, is_available := true,
    image_url := none, image_path := none, last_updated := some "2025-05-06 12:00" }

/-- A product with two variants. -/
def prodVar (u : String) : Product :=
  { prodOk u with variants := [mkVariant "a1" "red", mkVariant "a2" "blue"] }

/-- Fresh state: empty database, tick 0, empty logs. -/
def st0 : St :=
  { db := { products := [], variants := [], sessions := [] },
    tick := 0, fetchLog := [], statusTrace := [] }

/-- Cancellation never requested. -/
def cF : Cancel := fun _ => false

/-- Cancellation flag already set. -/
def cT : Cancel := fun _ => true

/-- Cancellation flag set from the sixth flag read on: in the
`env2` one-catalog run below this is mid-ingestion, after the first item
was committed and before the second item's loop checkpoint. -/
def c6 : Cancel := fun t => decide (6 ≤ t)

/-- One catalog page listing two products. -/
def env2 : Env :=
  { fetchProduct := fun u => .ok (prodOk u),
    catalogChain := fun _ => [some { rows := [some "u1", some "u2"], next := false }],
    categories := [],
    variantFails := fun _ => false }

/-- One catalog page listing six products. -/
def env6 : Env :=
  { env2 with catalogChain := fun _ =>
      [some { rows := [some "u1", some "u2", some "u3", some "u4", some "u5",
                       some "u6"], next := false }] }

/-- One discovered category whose catalog page lists seven products. -/
def env7 : Env :=
  { fetchProduct := fun u => .ok (prodOk u),
    catalogChain := fun _ =>
      [some { rows := [some "u1", some "u2", some "u3", some "u4", some "u5",
                       some "u6", some "u7"], next := false }],
    categories := [{ name := "c", url := "curl" }],
    variantFails := fun _ => false }

/-- A catalog whose chain is empty (first page failed to fetch): the
walker finds no rows at all. -/
def env0 : Env :=
  { fetchProduct := fun u => .ok (prodOk u),
    catalogChain := fun _ => [],
    categories := [],
    variantFails := fun _ => false }

/-- Every product page is unparsable (sentinel title). -/
def envB : Env := { env0 with fetchProduct := fun u => .ok (prodBad u) }

/-- One catalog page listing one product. -/
def env9 : Env :=
  { fetchProduct := fun u => .ok (prodOk u),
    catalogChain := fun _ => [some { rows := [some "u1"], next := false }],
    categories := [], variantFails := fun _ => false }

/-- The bulk variant insert raises on article number a1. -/
def envF : Env :=
  { env0 with variantFails := fun r => r.article_number = "a1" }

/-- The concrete run refuting C2: two discovered items, the cancellation
flag set after the first item was fully committed. -/
def c2run : Except PyExc (RunResult × St) :=
  parse_catalog env2 c6 (some "cat") none none none "s" none st0

/-- The concrete run refuting C3: all-catalogs mode over `env7`. -/
def c3run : Except PyExc (RunResult × St) :=
  parse_catalog env7 cF none none none (some 100) "s" none st0

/-- The concrete run refuting C4: one-catalog mode over the empty walk. -/
def c4run : Except PyExc (RunResult × St) :=
  parse_catalog env0 cF (some "cat") none none none "s" none st0

/-- The concrete run refuting C5: single-item mode, unparsable page. -/
def c5run : Except PyExc (RunResult × St) :=
  parse_catalog envB cF none none none none "s" (some "u") st0

/-- The initial result dictionary of `parse_catalog`. -/
def r0run : RunResult := { success := false, products_processed := 0, message := "" }

/-- The seven URLs of `env7`'s single category. -/
def l7 : List String := ["u1", "u2", "u3", "u4", "u5", "u6", "u7"]

/-- A two-product catalog whose product pages are all unparsable
(sentinel titles). -/
def envC : Env :=
  { fetchProduct := fun u => .ok (prodBad u),
    catalogChain := fun _ => [some { rows := [some "u1", some "u2"], next := false }],
    categories := [],
    variantFails := fun _ => false }

/-! ### Plumbing lemmas about the state-passing embedding -/

theorem find?_upsertSession (sid : String) (row : SessionRow) (l : List SessionRow)
    (hrow : row.session_id = sid) :
    (upsertSession row l).find? (fun r => r.session_id = sid) = some row := by
  induction l with
  | nil => simp [upsertSession, List.find?, hrow]
  | cons r rs ih =>
    by_cases h : r.session_id = sid
    · simp only [upsertSession, hrow, h, if_pos rfl]
      simp [List.find?, hrow]
    · have h2 : ¬ r.session_id = row.session_id := by rw [hrow]; exact h
      simp only [upsertSession, if_neg h2]
      simp [List.find?, h, ih]

theorem sessionStatus_update (sid s : String) (purls : Option (List UrlItem))
    (prog cn : Option String) (st : St) :
    sessionStatus sid (update_session_status sid s purls prog cn st).db = some s := by
  unfold sessionStatus update_session_status
  rw [find?_upsertSession sid _ _ rfl]
  rfl

theorem sessionPending_update (sid s : String) (purls : List UrlItem)
    (prog cn : Option String) (st : St) (h : purls ≠ []) :
    sessionPending sid (update_session_status sid s (some purls) prog cn st).db =
      some (some purls) := by
  unfold sessionPending update_session_status
  rw [find?_upsertSession sid _ _ rfl]
  simp [h]

theorem update_session_status_products (sid s purls prog cn st) :
    (update_session_status sid s purls prog cn st).db.products = st.db.products := rfl

theorem update_session_status_variants (sid s purls prog cn st) :
    (update_session_status sid s purls prog cn st).db.variants = st.db.variants := rfl

theorem update_session_status_fetchLog (sid s purls prog cn st) :
    (update_session_status sid s purls prog cn st).fetchLog = st.fetchLog := rfl

theorem update_session_status_tick (sid s purls prog cn st) :
    (update_session_status sid s purls prog cn st).tick = st.tick := rfl

theorem update_session_status_trace (sid s purls prog cn st) :
    (update_session_status sid s purls prog cn st).statusTrace =
      st.statusTrace ++ [(sid, s)] := rfl

theorem cleanup_incomplete_sessions (st : St) :
    (cleanup_incomplete st).db.sessions = st.db.sessions := rfl

theorem cleanup_incomplete_trace (st : St) :
    (cleanup_incomplete st).statusTrace = st.statusTrace := rfl

theorem prepVariantsLoop_state (c : Cancel) (pid : Nat) (vs : List Variant) (st : St) :
    (prepVariantsLoop c pid vs st).2.db = st.db ∧
    (prepVariantsLoop c pid vs st).2.fetchLog = st.fetchLog ∧
    (prepVariantsLoop c pid vs st).2.statusTrace = st.statusTrace := by
  induction vs generalizing st with
  | nil => exact ⟨rfl, rfl, rfl⟩
  | cons v vs ih =>
    simp only [prepVariantsLoop, readCancel]
    by_cases h : c st.tick = true
    · simp [h]
    · simp only [if_neg h]
      obtain ⟨h1, h2, h3⟩ := ih { st with tick := st.tick + 1 }
      rcases hp : prepVariantsLoop c pid vs { st with tick := st.tick + 1 } with ⟨o, st2⟩
      rw [hp] at h1 h2 h3
      cases o <;> simpa using ⟨h1, h2, h3⟩

theorem prepVariantsLoop_cancel_free (c : Cancel) (pid : Nat) (vs : List Variant)
    (st : St) (hc : ∀ t, c t = false) :
    (prepVariantsLoop c pid vs st).1 = some (vs.map (prepVariant pid)) := by
  induction vs generalizing st with
  | nil => rfl
  | cons v vs ih =>
    simp only [prepVariantsLoop, readCancel]
    rw [if_neg (by simp [hc])]
    rcases hp : prepVariantsLoop c pid vs { st with tick := st.tick + 1 } with ⟨o, st2⟩
    have h1 := ih { st with tick := st.tick + 1 }
    rw [hp] at h1
    cases o with
    | none => simp at h1
    | some rs =>
      have hrs : rs = vs.map (prepVariant pid) := by simpa using h1
      simp [hrs]

theorem productUpsert_sessions (p : Product) (ip : Option String) (db : Db) :
    (productUpsert p ip db).sessions = db.sessions := by
  unfold productUpsert; split <;> rfl

theorem save_to_db_state (env : Env) (c : Cancel) (p : Product) (vars : List Variant)
    (sid : String) (st : St) :
    (save_to_db env c p vars sid st).2.db.sessions = st.db.sessions ∧
    (save_to_db env c p vars sid st).2.fetchLog = st.fetchLog ∧
    (save_to_db env c p vars sid st).2.statusTrace = st.statusTrace := by
  unfold save_to_db readCancel
  by_cases h : c st.tick = true
  · simp [h]
  · simp only [if_neg h]
    by_cases ht : titleInvalid p.title = true
    · simp [ht]
    · simp only [if_neg ht]
      split
      · exact ⟨rfl, rfl, rfl⟩
      · rename_i row _hrow
        rcases hp : prepVariantsLoop c row.id vars { st with tick := st.tick + 1 } with ⟨o, st2⟩
        obtain ⟨h1, h2, h3⟩ := prepVariantsLoop_state c row.id vars { st with tick := st.tick + 1 }
        rw [hp] at h1 h2 h3
        cases o with
        | none => exact ⟨h1 ▸ rfl, h2, h3⟩
        | some rows =>
          by_cases hr : rows = []
          · simp only [hr, if_pos rfl]
            refine ⟨?_, h2, h3⟩
            simp [productUpsert_sessions, h1]
          · simp only [if_neg hr]
            split
            · exact ⟨h1 ▸ rfl, h2, h3⟩
            · refine ⟨?_, h2, h3⟩
              simp [productUpsert_sessions, h1]

theorem save_to_db_rollback (env : Env) (c : Cancel) (p : Product) (vars : List Variant)
    (sid : String) (st : St) :
    (save_to_db env c p vars sid st).1 = false →
    (save_to_db env c p vars sid st).2.db = st.db := by
  unfold save_to_db readCancel
  by_cases h : c st.tick = true
  · simp [h]
  · simp only [if_neg h]
    by_cases ht : titleInvalid p.title = true
    · simp [ht]
    · simp only [if_neg ht]
      split
      · intro _; rfl
      · rename_i row _hrow
        rcases hp : prepVariantsLoop c row.id vars { st with tick := st.tick + 1 } with ⟨o, st2⟩
        obtain ⟨h1, _h2, _h3⟩ := prepVariantsLoop_state c row.id vars { st with tick := st.tick + 1 }
        rw [hp] at h1
        cases o with
        | none => intro _; exact h1
        | some rows =>
          by_cases hr : rows = []
          · simp only [hr, if_pos rfl]
            intro hfalse; simp at hfalse
          · simp only [if_neg hr]
            split
            · intro _; exact h1
            · intro hfalse; simp at hfalse

theorem execManyVariants_none_iff (env : Env) (rows : List VariantRow)
    (t : List VariantRow) :
    execManyVariants env rows t = none ↔ rows.any env.variantFails = true := by
  induction rows generalizing t with
  | nil => simp [execManyVariants]
  | cons r rs ih =>
    by_cases h : env.variantFails r
    · simp [execManyVariants, h]
    · simp [execManyVariants, h, ih]

theorem productUpsert_find_isSome (p : Product) (ip : Option String) (db : Db) :
    ((productUpsert p ip db).products.find? (fun r => r.url = p.url)).isSome = true := by
  unfold productUpsert
  rcases hf : db.products.find? (fun r => r.url = p.url) with _ | r0
  · simp only [hf]
    rw [List.find?_append, hf]
    simp [List.find?]
  · simp only [hf]
    rw [List.find?_isSome]
    have hmem := List.mem_of_find?_eq_some hf
    have hurl : r0.url = p.url := by simpa using List.find?_some hf
    refine ⟨_, List.mem_map_of_mem _ hmem, ?_⟩
    simp [hurl]

theorem save_to_db_no_variants (env : Env) (c : Cancel) (p : Product) (sid : String)
    (st : St) (hc : c st.tick = false) (ht : titleInvalid p.title = false) :
    save_to_db env c p [] sid st =
      (true,
        { st with
            tick := st.tick + 1,
            db := productUpsert p (saveImagePath p) st.db }) := by
  unfold save_to_db readCancel
  simp only [hc, Bool.false_eq_true, if_false, ht]
  rcases ho : (productUpsert p (saveImagePath p) st.db).products.find?
      (fun r => r.url = p.url) with _ | row
  · have := productUpsert_find_isSome p (saveImagePath p) st.db
    rw [ho] at this
    simp at this
  · simp [ho, prepVariantsLoop]

theorem filter_productUpsert (p : Product) (ip : Option String) (db : Db)
    (hinv : (db.products.filter (fun r => r.url = p.url)).length ≤ 1) :
    ((productUpsert p ip db).products.filter (fun r => r.url = p.url)).length = 1 ∧
    ∀ r ∈ (productUpsert p ip db).products.filter (fun r => r.url = p.url),
      r.category = p.category ∧ r.title = p.title ∧ r.price = p.price ∧
      r.sostav = p.sostav ∧ r.ves_motka = p.ves_motka ∧
      r.dlina_motka = p.dlina_motka ∧ r.ves_upakovki = p.ves_upakovki ∧
      r.image_path = ip ∧ r.last_updated = p.last_updated ∧
      r.is_complete = true := by
  unfold productUpsert
  rcases hf : db.products.find? (fun r => r.url = p.url) with _ | r0
  · simp only [hf]
    have hfil : db.products.filter (fun r => decide (r.url = p.url)) = [] :=
      List.filter_eq_nil_iff.mpr (List.find?_eq_none.mp hf)
    rw [List.filter_append, hfil]
    constructor
    · simp [List.filter]
    · intro r hr
      simp only [List.nil_append] at hr
      have : r ∈ List.filter (fun r => decide (r.url = p.url))
          [{ id := nextProductId db, category := p.category, title := p.title,
             price := p.price, sostav := p.sostav, ves_motka := p.ves_motka,
             dlina_motka := p.dlina_motka, ves_upakovki := p.ves_upakovki,
             image_path := ip, url := p.url, last_updated := p.last_updated,
             is_complete := true }] := hr
      simp [List.filter] at this
      subst this
      exact ⟨rfl, rfl, rfl, rfl, rfl, rfl, rfl, rfl, rfl, rfl⟩
  · simp only [hf]
    have hcong : ∀ x : ProductRow,
        (decide ((if x.url = p.url then
          { id := x.id, category := p.category, title := p.title, price := p.price,
            sostav := p.sostav, ves_motka := p.ves_motka, dlina_motka := p.dlina_motka,
            ves_upakovki := p.ves_upakovki, image_path := ip, url := x.url,
            last_updated := p.last_updated, is_complete := true }
          else x).url = p.url)) = decide (x.url = p.url) := by
      intro x
      by_cases hx : x.url = p.url <;> simp [hx]
    rw [List.filter_map]
    have hpred : List.filter
        ((fun r => decide (r.url = p.url)) ∘ (fun r =>
          if r.url = p.url then
            { id := r.id, category := p.category, title := p.title, price := p.price,
              sostav := p.sostav, ves_motka := p.ves_motka, dlina_motka := p.dlina_motka,
              ves_upakovki := p.ves_upakovki, image_path := ip, url := r.url,
              last_updated := p.last_updated, is_complete := true }
          else r)) db.products =
        List.filter (fun r => decide (r.url = p.url)) db.products := by
      apply List.filter_congr
      intro x _
      exact hcong x
    rw [hpred]
    have hne : db.products.filter (fun r => decide (r.url = p.url)) ≠ [] := by
      intro hnil
      have hnotp := (List.filter_eq_nil_iff.mp hnil) r0 (List.mem_of_find?_eq_some hf)
      have hp0 := @List.find?_some ProductRow (fun r => decide (r.url = p.url))
        r0 db.products hf
      exact hnotp hp0
    have hlen1 : (db.products.filter (fun r => decide (r.url = p.url))).length = 1 := by
      have hge : 1 ≤ (db.products.filter (fun r => decide (r.url = p.url))).length := by
        rcases hx : db.products.filter (fun r => decide (r.url = p.url)) with _ | ⟨a, l⟩
        · exact absurd hx hne
        · rw [hx]; simp
      omega
    constructor
    · simp [hlen1]
    · intro r hr
      rw [List.mem_map] at hr
      obtain ⟨x, hx, hxr⟩ := hr
      have hxurl : x.url = p.url := by
        have := List.mem_filter.mp hx
        simpa using this.2
      rw [← hxr]
      simp [hxurl]

/-! ### C7: save_to_db rejects title-less records -/

theorem save_to_db_invalid_title (env : Env) (c : Cancel) (p : Product)
    (vars : List Variant) (sid : String) (st : St)
    (h : titleInvalid p.title = true) :
    save_to_db env c p vars sid st = (false, { st with tick := st.tick + 1 }) := by
  unfold save_to_db readCancel
  by_cases hc : c st.tick = true
  · simp [hc]
  · simp [hc, h]

/-- C7: `save_to_db` rejects, returning `False` and leaving the database
untouched, every record whose title is Python-falsy or the sentinel
"Не найдено" ("not found"); the only state change is the single
cancellation-flag read. -/
theorem upsertProduct_rejects_titleless (env : Env) (c : Cancel) (p : Product)
    (vars : List Variant) (sid : String) (st : St)
    (h : titleInvalid p.title = true) :
    save_to_db env c p vars sid st = (false, { st with tick := st.tick + 1 }) :=
  save_to_db_invalid_title env c p vars sid st h

/-- Witness for C7 at a concrete input: the sentinel-titled product is
rejected and the database still holds no rows. -/
theorem upsertProduct_rejects_titleless_witness :
    save_to_db env0 cF (prodBad "u") [] "s" st0 = (false, { st0 with tick := 1 }) ∧
    (save_to_db env0 cF (prodBad "u") [] "s" st0).2.db.products = [] := by
  refine ⟨upsertProduct_rejects_titleless env0 cF (prodBad "u") [] "s" st0 (by decide), ?_⟩
  rw [upsertProduct_rejects_titleless env0 cF (prodBad "u") [] "s" st0 (by decide)]
  decide

/-! ### C8: variant batches are all-or-nothing per product -/

/-- C8: a failure inside the bulk variant insert makes `save_to_db` return
failure and roll the entire transaction back: the database — product row
included — is exactly what it was before the call, so no half-written
variant set is ever committed. -/
theorem upsertVariants_batch_atomic (env : Env) (c : Cancel) (p : Product)
    (vars : List Variant) (sid : String) (st : St)
    (hc : ∀ t, c t = false) (ht : titleInvalid p.title = false)
    (hfail : (vars.map (prepVariant (savePid p st.db))).any env.variantFails = true) :
    (save_to_db env c p vars sid st).1 = false ∧
    (save_to_db env c p vars sid st).2.db = st.db := by
  have hfirst : (save_to_db env c p vars sid st).1 = false := by
    unfold save_to_db readCancel
    simp only [hc, Bool.false_eq_true, if_false, ht]
    rcases ho : (productUpsert p (saveImagePath p) st.db).products.find?
        (fun r => r.url = p.url) with _ | row
    · simp only [ho]
    · have hpid : savePid p st.db = row.id := by
        unfold savePid; rw [ho]
      rcases hp : prepVariantsLoop c row.id vars { st with tick := st.tick + 1 }
        with ⟨o, st2⟩
      have hpre := prepVariantsLoop_cancel_free c row.id vars
        { st with tick := st.tick + 1 } hc
      rw [hp] at hpre
      simp only [Prod.fst] at hpre
      subst hpre
      have hrows : (vars.map (prepVariant row.id)).any env.variantFails = true := by
        rw [← hpid]; exact hfail
      have hne : vars.map (prepVariant row.id) ≠ [] := by
        intro hnil
        rw [hnil] at hrows
        simp at hrows
      simp only [ho, hp]
      rw [if_neg hne]
      have hexec : execManyVariants env (vars.map (prepVariant row.id))
          (productUpsert p (saveImagePath p) st.db).variants = none :=
        (execManyVariants_none_iff env _ _).mpr hrows
      rw [hexec]
  exact ⟨hfirst, save_to_db_rollback env c p vars sid st hfirst⟩

/-- Witness for C8 at a concrete input: the injected failure on article a1
of a two-variant batch makes the whole save fail and leaves the fresh
database empty. -/
theorem upsertVariants_batch_atomic_witness :
    (save_to_db envF cF (prodVar "u") (prodVar "u").variants "s" st0).1 = false ∧
    (save_to_db envF cF (prodVar "u") (prodVar "u").variants "s" st0).2.db = st0.db :=
  upsertVariants_batch_atomic envF cF (prodVar "u") (prodVar "u").variants "s" st0
    (fun _ => rfl) (by decide) (by decide)

/-! ### C6: product upsert is idempotent, last write wins -/

/-- C6: saving two records with the same canonical URL (and valid titles,
no cancellation, a url-unique database) succeeds twice and leaves exactly
one product row for that URL, carrying the field values of the second
record. -/
theorem upsertProduct_idempotent (env : Env) (c : Cancel) (p1 p2 : Product)
    (sid : String) (st : St)
    (hurl : p1.url = p2.url)
    (ht1 : titleInvalid p1.title = false) (ht2 : titleInvalid p2.title = false)
    (hc : ∀ t, c t = false)
    (hinv : (st.db.products.filter (fun r => r.url = p2.url)).length ≤ 1) :
    ∃ st1 st2,
      save_to_db env c p1 [] sid st = (true, st1) ∧
      save_to_db env c p2 [] sid st1 = (true, st2) ∧
      (st2.db.products.filter (fun r => r.url = p2.url)).length = 1 ∧
      ∀ r ∈ st2.db.products.filter (fun r => r.url = p2.url),
        r.category = p2.category ∧ r.title = p2.title ∧ r.price = p2.price ∧
        r.sostav = p2.sostav ∧ r.ves_motka = p2.ves_motka ∧
        r.dlina_motka = p2.dlina_motka ∧ r.ves_upakovki = p2.ves_upakovki ∧
        r.image_path = saveImagePath p2 ∧ r.last_updated = p2.last_updated := by
  have h1 := save_to_db_no_variants env c p1 sid st (hc _) ht1
  have h2 := save_to_db_no_variants env c p2 sid
    { st with tick := st.tick + 1,
              db := productUpsert p1 (saveImagePath p1) st.db } (hc _) ht2
  have hinv1 : (st.db.products.filter (fun r => r.url = p1.url)).length ≤ 1 := by
    rw [hurl]; exact hinv
  have hf1 := filter_productUpsert p1 (saveImagePath p1) st.db hinv1
  have hinv2 : ((productUpsert p1 (saveImagePath p1) st.db).products.filter
      (fun r => r.url = p2.url)).length ≤ 1 := by
    rw [← hurl]; exact le_of_eq hf1.1
  have hf2 := filter_productUpsert p2 (saveImagePath p2)
    (productUpsert p1 (saveImagePath p1) st.db) hinv2
  refine ⟨_, _, h1, h2, hf2.1, ?_⟩
  intro r hr
  have h := hf2.2 r hr
  exact ⟨h.1, h.2.1, h.2.2.1, h.2.2.2.1, h.2.2.2.2.1, h.2.2.2.2.2.1,
    h.2.2.2.2.2.2.1, h.2.2.2.2.2.2.2.1, h.2.2.2.2.2.2.2.2.1⟩

/-- Witness for C6 at a concrete input: two saves of the same URL with
different titles and prices leave one row holding the second record's
values. -/
theorem upsertProduct_idempotent_witness :
    ∃ st1 st2,
      save_to_db env0 cF (prodOk "u") [] "s" st0 = (true, st1) ∧
      save_to_db env0 cF prodOk2 [] "s" st1 = (true, st2) ∧
      (st2.db.products.filter (fun r => r.url = prodOk2.url)).length = 1 ∧
      ∀ r ∈ st2.db.products.filter (fun r => r.url = prodOk2.url),
        r.category = prodOk2.category ∧ r.title = prodOk2.title ∧
        r.price = prodOk2.price ∧ r.sostav = prodOk2.sostav ∧
        r.ves_motka = prodOk2.ves_motka ∧ r.dlina_motka = prodOk2.dlina_motka ∧
        r.ves_upakovki = prodOk2.ves_upakovki ∧
        r.image_path = saveImagePath prodOk2 ∧
        r.last_updated = prodOk2.last_updated :=
  upsertProduct_idempotent env0 cF (prodOk "u") prodOk2 "s" st0
    rfl (by decide) (by decide) (fun _ => rfl) (by decide)

/-! ### Catalog Walker lemmas (C9) -/

theorem catalogRows_extend (mP : Option Int) (rows : List (Option String))
    (acc : List String) :
    ∃ ext, (catalogRows mP rows acc).1 = acc ++ ext := by
  induction rows generalizing acc with
  | nil => exact ⟨[], by simp [catalogRows]⟩
  | cons r rest ih =>
    cases r with
    | none => simpa [catalogRows] using ih acc
    | some u =>
      by_cases hm : u ∈ acc
      · simpa [catalogRows, hm] using ih acc
      · cases mP with
        | none =>
          obtain ⟨ext, hext⟩ := ih (acc ++ [u])
          refine ⟨[u] ++ ext, ?_⟩
          simp only [catalogRows, if_neg hm, hext]
          simp
        | some n =>
          by_cases hlim : ((acc ++ [u]).length : Int) ≥ n
          · refine ⟨[u], ?_⟩
            simp only [catalogRows, if_neg hm, if_pos hlim]
          · obtain ⟨ext, hext⟩ := ih (acc ++ [u])
            refine ⟨[u] ++ ext, ?_⟩
            simp only [catalogRows, if_neg hm, if_neg hlim, hext]
            simp

theorem catalogRows_none_no_stop (rows : List (Option String)) (acc : List String) :
    (catalogRows none rows acc).2 = false := by
  induction rows generalizing acc with
  | nil => rfl
  | cons r rest ih =>
    cases r with
    | none => simpa [catalogRows] using ih acc
    | some u =>
      by_cases hm : u ∈ acc
      · simpa [catalogRows, hm] using ih acc
      · simp only [catalogRows, if_neg hm]
        exact ih (acc ++ [u])

theorem catalogRows_limit (N : Int) (rows : List (Option String)) (acc : List String)
    (h : (acc.length : Int) < N) :
    ((catalogRows (some N) rows acc).2 = true →
      (catalogRows (some N) rows acc).1 = (catalogRows none rows acc).1.take N.toNat ∧
      (((catalogRows (some N) rows acc).1.length : Int) = N)) ∧
    ((catalogRows (some N) rows acc).2 = false →
      (catalogRows (some N) rows acc).1 = (catalogRows none rows acc).1 ∧
      (((catalogRows (some N) rows acc).1.length : Int) < N)) := by
  induction rows generalizing acc with
  | nil =>
    constructor
    · intro hstop; simp [catalogRows] at hstop
    · intro _; exact ⟨rfl, by simpa [catalogRows] using h⟩
  | cons r rest ih =>
    cases r with
    | none => simpa [catalogRows] using ih acc h
    | some u =>
      by_cases hm : u ∈ acc
      · simpa [catalogRows, hm] using ih acc h
      · by_cases hlim : (((acc ++ [u]).length : Int) ≥ N)
        · have hlen : (((acc ++ [u]).length : Int)) = N := by
            simp only [List.length_append, List.length_singleton] at hlim ⊢
            omega
          constructor
          · intro _
            obtain ⟨ext, hext⟩ := catalogRows_extend none rest (acc ++ [u])
            have htoNat : N.toNat = (acc ++ [u]).length := by omega
            refine ⟨?_, ?_⟩
            · simp only [catalogRows, if_neg hm, if_pos hlim, hext, htoNat]
              rw [List.take_left]
            · simp only [catalogRows, if_neg hm, if_pos hlim]
              exact hlen
          · intro hstop
            simp only [catalogRows, if_neg hm, if_pos hlim] at hstop
            exact Bool.noConfusion hstop
        · have hlt : (((acc ++ [u]).length : Int)) < N := by
            simp only [List.length_append, List.length_singleton] at hlim ⊢
            omega
          have := ih (acc ++ [u]) hlt
          constructor
          · intro hstop
            simp only [catalogRows, if_neg hm, if_neg hlim] at hstop ⊢
            exact this.1 hstop
          · intro hstop
            simp only [catalogRows, if_neg hm, if_neg hlim] at hstop ⊢
            exact this.2 hstop

theorem catalogRows_nodup (mP : Option Int) (rows : List (Option String))
    (acc : List String) (h : acc.Nodup) : (catalogRows mP rows acc).1.Nodup := by
  induction rows generalizing acc with
  | nil => simpa [catalogRows] using h
  | cons r rest ih =>
    cases r with
    | none => simpa [catalogRows] using ih acc h
    | some u =>
      by_cases hm : u ∈ acc
      · simpa [catalogRows, hm] using ih acc h
      · have hnd : (acc ++ [u]).Nodup := by
          simp [List.nodup_append, h, hm]
        cases mP with
        | none =>
          simp only [catalogRows, if_neg hm]
          exact ih (acc ++ [u]) hnd
        | some n =>
          by_cases hlim : (((acc ++ [u]).length : Int) ≥ n)
          · simp only [catalogRows, if_neg hm, if_pos hlim]
            exact hnd
          · simp only [catalogRows, if_neg hm, if_neg hlim]
            exact ih (acc ++ [u]) hnd

theorem catalogWalk_nodup (c : Cancel) (mp mP : Option Int)
    (pages : List (Option CatalogPage)) (acc : List String) (n t : Nat)
    (h : acc.Nodup) : (catalogWalk c mp mP pages acc n t).1.Nodup := by
  induction pages generalizing acc n t with
  | nil => simpa [catalogWalk] using h
  | cons p? rest ih =>
    simp only [catalogWalk]
    split
    · exact h
    · split
      · exact h
      · cases p? with
        | none => exact h
        | some pg =>
          by_cases hr : pg.rows = []
          · simp only [if_pos hr]
            exact h
          · simp only [if_neg hr]
            rcases hrb : catalogRows mP pg.rows acc with ⟨urls, stop⟩
            have hnd : urls.Nodup := by
              have := catalogRows_nodup mP pg.rows acc h
              rw [hrb] at this
              exact this
            cases stop with
            | true => simpa using hnd
            | false =>
              by_cases hn : pg.next = true
              · simp only [hn, if_pos rfl]
                exact ih urls (n + 1) (t + 1) hnd
              · simp only [hn]
                simpa using hnd

theorem catalogWalk_extend (c : Cancel) (mp mP : Option Int)
    (pages : List (Option CatalogPage)) (acc : List String) (n t : Nat) :
    ∃ ext, (catalogWalk c mp mP pages acc n t).1 = acc ++ ext := by
  induction pages generalizing acc n t with
  | nil => exact ⟨[], by simp [catalogWalk]⟩
  | cons p? rest ih =>
    simp only [catalogWalk]
    split
    · exact ⟨[], by simp⟩
    · split
      · exact ⟨[], by simp⟩
      · cases p? with
        | none => exact ⟨[], by simp⟩
        | some pg =>
          by_cases hr : pg.rows = []
          · simp only [if_pos hr]
            exact ⟨[], by simp⟩
          · simp only [if_neg hr]
            rcases hrb : catalogRows mP pg.rows acc with ⟨urls, stop⟩
            obtain ⟨e1, he1⟩ := catalogRows_extend mP pg.rows acc
            rw [hrb] at he1
            cases stop with
            | true => exact ⟨e1, by simpa using he1⟩
            | false =>
              by_cases hn : pg.next = true
              · simp only [hn, if_pos rfl]
                obtain ⟨e2, he2⟩ := ih urls (n + 1) (t + 1)
                refine ⟨e1 ++ e2, ?_⟩
                have he1x : urls = acc ++ e1 := he1
                show (catalogWalk c mp mP rest urls (n + 1) (t + 1)).1 = acc ++ (e1 ++ e2)
                rw [he2, he1x, List.append_assoc]
              · simp only [hn]
                exact ⟨e1, by simpa using he1⟩

theorem catalogWalk_limit (c : Cancel) (mp : Option Int) (N : Int)
    (pages : List (Option CatalogPage)) (acc : List String) (n t : Nat)
    (h : (acc.length : Int) < N) :
    (catalogWalk c mp (some N) pages acc n t).1 =
      (catalogWalk c mp none pages acc n t).1.take N.toNat := by
  induction pages generalizing acc n t with
  | nil =>
    show acc = List.take N.toNat acc
    rw [List.take_of_length_le]
    omega
  | cons p? rest ih =>
    simp only [catalogWalk]
    split
    · show acc = List.take N.toNat acc
      rw [List.take_of_length_le]; omega
    · split
      · show acc = List.take N.toNat acc
        rw [List.take_of_length_le]; omega
      · cases p? with
        | none =>
          show acc = List.take N.toNat acc
          rw [List.take_of_length_le]; omega
        | some pg =>
          by_cases hr : pg.rows = []
          · simp only [if_pos hr]
            show acc = List.take N.toNat acc
            rw [List.take_of_length_le]; omega
          · simp only [if_neg hr]
            rcases hrbL : catalogRows (some N) pg.rows acc with ⟨urlsL, stopL⟩
            rcases hrbU : catalogRows none pg.rows acc with ⟨urlsU, stopU⟩
            have hlim := catalogRows_limit N pg.rows acc h
            rw [hrbL, hrbU] at hlim
            have hstopU : stopU = false := by
              have hx := catalogRows_none_no_stop pg.rows acc
              rw [hrbU] at hx
              exact hx
            subst hstopU
            dsimp only
            cases stopL with
            | true =>
              obtain ⟨htake, hlen⟩ := hlim.1 rfl
              have htake2 : urlsL = List.take N.toNat urlsU := htake
              have hlen2 : (urlsL.length : Int) = N := hlen
              have hmin : urlsL.length = min N.toNat urlsU.length := by
                rw [htake2]; exact List.length_take N.toNat urlsU
              by_cases hn : pg.next = true
              · simp only [hn, if_pos rfl]
                obtain ⟨e2, he2⟩ := catalogWalk_extend c mp none rest urlsU (n + 1) (t + 1)
                show urlsL = List.take N.toNat (catalogWalk c mp none rest urlsU (n + 1) (t + 1)).1
                rw [he2, List.take_append_of_le_length (by omega), htake2]
              · simp only [hn, if_false, Bool.false_eq_true]
                exact htake2
            | false =>
              obtain ⟨heq, hlen⟩ := hlim.2 rfl
              have heq2 : urlsL = urlsU := heq
              have hlen2 : (urlsL.length : Int) < N := hlen
              rw [heq2] at hlen2
              by_cases hn : pg.next = true
              · simp only [hn, if_pos rfl]
                rw [heq2]
                exact ih urlsU (n + 1) (t + 1) hlen2
              · simp only [hn, if_false, Bool.false_eq_true]
                rw [heq2, List.take_of_length_le]
                omega

theorem catalogWalk_cancel_free (c c' : Cancel) (mp mP : Option Int)
    (pages : List (Option CatalogPage)) (acc : List String) (n : Nat) (t t' : Nat)
    (hc : ∀ s, c s = false) (hc' : ∀ s, c' s = false) :
    (catalogWalk c mp mP pages acc n t).1 = (catalogWalk c' mp mP pages acc n t').1 := by
  induction pages generalizing acc n t t' with
  | nil => rfl
  | cons p? rest ih =>
    simp only [catalogWalk, hc, hc', Bool.false_eq_true, if_false]
    split
    · rfl
    · cases p? with
      | none => rfl
      | some pg =>
        by_cases hr : pg.rows = []
        · simp only [if_pos hr]
        · simp only [if_neg hr]
          rcases hrb : catalogRows mP pg.rows acc with ⟨urls, stop⟩
          cases stop with
          | true => rfl
          | false =>
            by_cases hn : pg.next = true
            · simp only [hn, if_pos rfl]
              exact ih urls (n + 1) (t + 1) (t' + 1)
            · simp only [if_neg hn]
              rfl

theorem fetch_catalog_page_state (env : Env) (c : Cancel) (cu : String)
    (cat : Option String) (mp mP : Option Int) (st : St) :
    (fetch_catalog_page env c cu cat mp mP st).2.db = st.db ∧
    (fetch_catalog_page env c cu cat mp mP st).2.fetchLog = st.fetchLog ∧
    (fetch_catalog_page env c cu cat mp mP st).2.statusTrace = st.statusTrace := by
  unfold fetch_catalog_page readCancel
  by_cases h : c st.tick = true
  · simp [h]
  · simp [h]

theorem fetch_catalog_page_cancel_free (env : Env) (c : Cancel) (cu : String)
    (cat : Option String) (mp mP : Option Int) (st : St) (hc : ∀ t, c t = false) :
    (fetch_catalog_page env c cu cat mp mP st).1 = walkerUrls env cu mp mP := by
  unfold fetch_catalog_page readCancel walkerUrls
  simp only [hc, Bool.false_eq_true, if_false]
  exact catalogWalk_cancel_free c (fun _ => false) mp mP _ [] 0 _ 0 hc (fun _ => rfl)

/-! ### C9: the walker's product limit, dedup and early return -/

/-- C9 (amended for positive limits): for `max_products = N ≥ 1` the walker
returns exactly the first `N` URLs of the unlimited walk (so duplicates
were dropped without consuming the budget), the result has no duplicates
and length at most `N`, and a page on which the limit is reached makes the
walk return that page's partial harvest at once — one page fetched, the
remaining chain untouched.  For `N = 0` the claim fails, see the
counterexample: the limit is only checked after a URL is appended. -/
theorem fetch_catalog_page_limit (env : Env) (c : Cancel) (cu : String)
    (cat : Option String) (mp : Option Int) (st : St) (N : Int) (hN : 1 ≤ N) :
    (fetch_catalog_page env c cu cat mp (some N) st).1 =
      ((fetch_catalog_page env c cu cat mp none st).1).take N.toNat ∧
    ((fetch_catalog_page env c cu cat mp (some N) st).1).Nodup ∧
    (((fetch_catalog_page env c cu cat mp (some N) st).1).length : Int) ≤ N ∧
    (∀ (pg : CatalogPage) (rest : List (Option CatalogPage)) (acc : List String)
       (n t : Nat),
      pg.rows ≠ [] →
      (match mp with | some m => decide ((n : Int) ≥ m) | none => false) = false →
      c t = false →
      (catalogRows (some N) pg.rows acc).2 = true →
      catalogWalk c mp (some N) (some pg :: rest) acc n t =
        ((catalogRows (some N) pg.rows acc).1, 1, t + 1)) := by
  have hmain : (fetch_catalog_page env c cu cat mp (some N) st).1 =
      ((fetch_catalog_page env c cu cat mp none st).1).take N.toNat := by
    unfold fetch_catalog_page readCancel
    by_cases h : c st.tick = true
    · simp [h]
    · simp only [if_neg h]
      exact catalogWalk_limit c mp N (env.catalogChain cu) [] 0 _ (by simpa using hN)
  have hnodup : ((fetch_catalog_page env c cu cat mp (some N) st).1).Nodup := by
    unfold fetch_catalog_page readCancel
    by_cases h : c st.tick = true
    · simp [h]
    · simp only [if_neg h]
      exact catalogWalk_nodup c mp (some N) (env.catalogChain cu) [] 0 _ List.nodup_nil
  refine ⟨hmain, hnodup, ?_, ?_⟩
  · rw [hmain]
    have := List.length_take N.toNat (fetch_catalog_page env c cu cat mp none st).1
    omega
  · intro pg rest acc n t h1 h2 h3 h4
    simp only [catalogWalk, h2, Bool.false_eq_true, if_false, h3, if_neg h1, h4,
      if_pos rfl, if_true]

/-- Witness for C9's amended theorem at a concrete input: the one-page,
one-product catalog walked with limit 1. -/
theorem fetch_catalog_page_limit_witness :
    (fetch_catalog_page env9 cF "c" none none (some 1) st0).1 =
      ((fetch_catalog_page env9 cF "c" none none none st0).1).take (1 : Int).toNat ∧
    ((fetch_catalog_page env9 cF "c" none none (some 1) st0).1).Nodup ∧
    (((fetch_catalog_page env9 cF "c" none none (some 1) st0).1).length : Int) ≤ 1 := by
  have h := fetch_catalog_page_limit env9 cF "c" none none st0 1 (by decide)
  exact ⟨h.1, h.2.1, h.2.2.1⟩

/-- Counterexample to C9 as stated: with `max_products = 0` the walker
still returns one URL — length 1 > 0 — because the limit check runs only
after a fresh URL is appended. -/
theorem fetch_catalog_page_limit_counterexample :
    ¬ ((((fetch_catalog_page env9 cF "c" none none (some 0) st0).1).length : Int) ≤ 0) := by
  decide

theorem fetch_product_page_state (env : Env) (c : Cancel) (u : String)
    (cat : Option String) (st : St) :
    (fetch_product_page env c u cat st).2.db = st.db ∧
    (fetch_product_page env c u cat st).2.statusTrace = st.statusTrace := by
  unfold fetch_product_page readCancel
  by_cases h : c st.tick = true
  · simp [h]
  · simp only [if_neg h]
    cases env.fetchProduct u <;> simp

theorem fetch_product_page_log (env : Env) (c : Cancel) (u : String)
    (cat : Option String) (st : St) (hc : c st.tick = false) :
    (fetch_product_page env c u cat st).2.fetchLog = st.fetchLog ++ [u] := by
  unfold fetch_product_page readCancel
  simp only [hc, Bool.false_eq_true, if_false]
  cases env.fetchProduct u <;> simp

theorem fetch_product_page_val (env : Env) (c : Cancel) (u : String)
    (cat : Option String) (st : St) (hc0 : c st.tick = false) :
    (fetch_product_page env c u cat st).1 =
      (match env.fetchProduct u with
       | .error e => .error e
       | .ok q => .ok (some { q with category := cat })) := by
  unfold fetch_product_page readCancel
  simp only [hc0, Bool.false_eq_true, if_false]
  cases env.fetchProduct u <;> rfl

theorem parseUrlsLoop_no_status (env : Env) (c : Cancel) (cat : Option String)
    (sid : String) (items : List UrlItem) (acc : RunResult) (st : St) :
    (parseUrlsLoop env c cat sid items acc st).2.2.statusTrace = st.statusTrace ∧
    (parseUrlsLoop env c cat sid items acc st).2.2.db.sessions = st.db.sessions := by
  induction items generalizing acc st with
  | nil => exact ⟨rfl, rfl⟩
  | cons item rest ih =>
    simp only [parseUrlsLoop, readCancel]
    by_cases h : c st.tick = true
    · simp [h]
    · simp only [if_neg h]
      rcases hf : fetch_product_page env c (itemUrl item) (itemCat cat item)
          { st with tick := st.tick + 1 } with ⟨pr, st2⟩
      have hfs := fetch_product_page_state env c (itemUrl item) (itemCat cat item)
        { st with tick := st.tick + 1 }
      rw [hf] at hfs
      have hfs1 : st2.db = st.db := hfs.1
      have hfs2 : st2.statusTrace = st.statusTrace := hfs.2
      cases pr with
      | error e =>
        dsimp only
        have hr := ih { acc with success := false } st2
        refine ⟨?_, ?_⟩
        · rw [hr.1, hfs2]
        · rw [hr.2, hfs1]
      | ok p? =>
        cases p? with
        | none =>
          dsimp only
          have hr := ih { acc with success := false } st2
          refine ⟨?_, ?_⟩
          · rw [hr.1, hfs2]
          · rw [hr.2, hfs1]
        | some p =>
          dsimp only
          rcases hs : save_to_db env c p p.variants sid st2 with ⟨ok, st3⟩
          have hss := save_to_db_state env c p p.variants sid st2
          rw [hs] at hss
          have hss1 : st3.db.sessions = st2.db.sessions := hss.1
          have hss3 : st3.statusTrace = st2.statusTrace := hss.2.2
          cases ok with
          | true =>
            simp only [if_pos rfl, if_true]
            have hr := ih { acc with products_processed := acc.products_processed + 1 } st3
            refine ⟨?_, ?_⟩
            · rw [hr.1, hss3, hfs2]
            · rw [hr.2, hss1, hfs1]
          | false =>
            simp only [Bool.false_eq_true, if_false]
            have hr := ih { acc with success := false } st3
            refine ⟨?_, ?_⟩
            · rw [hr.1, hss3, hfs2]
            · rw [hr.2, hss1, hfs1]

theorem parseUrlsLoop_cancel_free (env : Env) (c : Cancel) (cat : Option String)
    (sid : String) (items : List UrlItem) (acc : RunResult) (st : St)
    (hc : ∀ t, c t = false) :
    (parseUrlsLoop env c cat sid items acc st).2.1 = false ∧
    (parseUrlsLoop env c cat sid items acc st).2.2.fetchLog =
      st.fetchLog ++ items.map itemUrl := by
  induction items generalizing acc st with
  | nil => exact ⟨rfl, by simp [parseUrlsLoop]⟩
  | cons item rest ih =>
    simp only [parseUrlsLoop, readCancel, hc, Bool.false_eq_true, if_false]
    rcases hf : fetch_product_page env c (itemUrl item) (itemCat cat item)
        { st with tick := st.tick + 1 } with ⟨pr, st2⟩
    have hfl := fetch_product_page_log env c (itemUrl item) (itemCat cat item)
      { st with tick := st.tick + 1 } (hc _)
    rw [hf] at hfl
    have hfl2 : st2.fetchLog = st.fetchLog ++ [itemUrl item] := hfl
    cases pr with
    | error e =>
      dsimp only
      have hr := ih { acc with success := false } st2
      refine ⟨hr.1, ?_⟩
      rw [hr.2, hfl2]
      simp
    | ok p? =>
      cases p? with
      | none =>
        dsimp only
        have hr := ih { acc with success := false } st2
        refine ⟨hr.1, ?_⟩
        rw [hr.2, hfl2]
        simp
      | some p =>
        dsimp only
        rcases hs : save_to_db env c p p.variants sid st2 with ⟨ok, st3⟩
        have hss := save_to_db_state env c p p.variants sid st2
        rw [hs] at hss
        have hss2 : st3.fetchLog = st2.fetchLog := hss.2.1
        cases ok with
        | true =>
          simp only [if_pos rfl, if_true]
          have hr := ih { acc with products_processed := acc.products_processed + 1 } st3
          refine ⟨hr.1, ?_⟩
          rw [hr.2, hss2, hfl2]
          simp
        | false =>
          simp only [Bool.false_eq_true, if_false]
          have hr := ih { acc with success := false } st3
          refine ⟨hr.1, ?_⟩
          rw [hr.2, hss2, hfl2]
          simp

theorem parse_catalog_one_catalog (env : Env) (c : Cancel) (cu : String)
    (cat : Option String) (mp mP : Option Int) (sid : String) (st : St)
    (hsid : sid ≠ "") (hcu : cu ≠ "") (hc0 : c st.tick = false) :
    parse_catalog env c (some cu) cat mp mP sid none st =
      (let st1 : St :=
        { update_session_status sid "in_progress" none (some "collecting_urls") none st
          with tick := st.tick + 1 }
       let fc := fetch_catalog_page env c cu cat mp mP st1
       let r0 : RunResult := { success := false, products_processed := 0, message := "" }
       if fc.1.length > 5 then
         .ok ({ r0 with message := "Paused for confirmation" },
           update_session_status sid "awaiting_confirmation"
             (some (fc.1.map UrlItem.bare)) (some "awaiting_confirmation") none fc.2)
       else
         match parse_product_urls env c (fc.1.map UrlItem.bare) cat sid fc.2 with
         | .error PyExc.requestExc => .ok ({ r0 with message := "Network error" }, fc.2)
         | .error PyExc.sqliteErr => .ok ({ r0 with message := "Database error" }, fc.2)
         | .error _ =>
           .ok ({ r0 with message := "Unexpected error" },
             cleanup_incomplete (update_session_status sid "error" none none none fc.2))
         | .ok (r, st2) =>
           if r.success then
             .ok (r, update_session_status sid "completed" none (some "done") none st2)
           else .ok (r, st2)) := by
  have hd : (decide (¬ cu = "")) = true := decide_eq_true hcu
  unfold parse_catalog parseCatalogBody
  rw [if_neg hsid]
  simp only [readCancel, update_session_status_tick, hc0, Bool.false_eq_true, if_false,
    optTruthy, Option.getD_some, ne_eq, hd, eq_self_iff_true, if_true]
  generalize ({ update_session_status sid "in_progress" none (some "collecting_urls") none st
      with tick := st.tick + 1 } : St) = st1
  generalize fetch_catalog_page env c cu cat mp mP st1 = fc
  by_cases hlen : fc.1.length > 5
  · simp only [if_pos hlen]
  · simp only [if_neg hlen]
    rcases parse_product_urls env c (fc.1.map UrlItem.bare) cat sid fc.2 with e | ⟨r, st2⟩
    · cases e <;> rfl
    · by_cases hr : r.success = true
      · simp only [hr, if_pos rfl, if_true]
      · simp only [hr, Bool.false_eq_true, if_false]

theorem parse_product_urls_cancel_free (env : Env) (c : Cancel) (items : List UrlItem)
    (cat : Option String) (sid : String) (st : St)
    (hsid : sid ≠ "") (hne : items ≠ []) (hc : ∀ t, c t = false) :
    ∃ r st', parse_product_urls env c items cat sid st = .ok (r, st') ∧
      st'.statusTrace = st.statusTrace ∧
      st'.db.sessions = st.db.sessions ∧
      st'.fetchLog = st.fetchLog ++ items.map itemUrl := by
  unfold parse_product_urls
  rw [if_neg hsid, if_neg hne]
  rcases hl : parseUrlsLoop env c cat sid items
      { success := true, products_processed := 0, message := "" } st with ⟨r, e, st'⟩
  have h1 := parseUrlsLoop_no_status env c cat sid items
    { success := true, products_processed := 0, message := "" } st
  have h2 := parseUrlsLoop_cancel_free env c cat sid items
    { success := true, products_processed := 0, message := "" } st hc
  rw [hl] at h1 h2
  have he : e = false := h2.1
  subst he
  by_cases hcond : (r.products_processed = items.length && r.success) = true
  · refine ⟨{ r with message := "Successfully processed products" }, st', ?_,
      h1.1, h1.2, h2.2⟩
    simp [hcond]
  · refine ⟨{ r with message := "Processed products with errors" }, st', ?_,
      h1.1, h1.2, h2.2⟩
    simp only [Bool.not_eq_true] at hcond
    simp [hcond]

theorem parse_catalog_single_item (env : Env) (c : Cancel) (u : String)
    (cat : Option String) (mp mP : Option Int) (sid : String) (st : St)
    (hsid : sid ≠ "") (hu : u ≠ "") (hc0 : c st.tick = false) :
    parse_catalog env c none cat mp mP sid (some u) st =
      (let st1 : St :=
        { update_session_status sid "in_progress" none (some "collecting_urls") none st
          with tick := st.tick + 1 }
       let fp := fetch_product_page env c u (some (defaultCategory cat)) st1
       let r0 : RunResult := { success := false, products_processed := 0, message := "" }
       match fp.1 with
       | .ok none => .ok ({ r0 with message := "Failed to parse product" }, fp.2)
       | .ok (some p) =>
         let sv := save_to_db env c p p.variants sid fp.2
         if sv.1 then
           .ok ({ success := true, products_processed := 1,
                  message := "Successfully parsed and saved product" },
             update_session_status sid "completed" none (some "done") none sv.2)
         else .ok ({ r0 with message := "Error saving product" }, sv.2)
       | .error PyExc.requestExc =>
         .ok ({ r0 with message := "Network error processing product" }, fp.2)
       | .error PyExc.sqliteErr =>
         .ok ({ r0 with message := "Database error processing product" }, fp.2)
       | .error _ =>
         .ok ({ r0 with message := "Unexpected error" },
           cleanup_incomplete (update_session_status sid "error" none none none fp.2))) := by
  have hd : (decide (¬ u = "")) = true := decide_eq_true hu
  unfold parse_catalog parseCatalogBody
  rw [if_neg hsid]
  simp only [readCancel, update_session_status_tick, hc0, Bool.false_eq_true, if_false,
    optTruthy, Option.getD_some, ne_eq, hd, eq_self_iff_true, if_true]
  generalize ({ update_session_status sid "in_progress" none (some "collecting_urls") none st
      with tick := st.tick + 1 } : St) = st1
  generalize fetch_product_page env c u (some (defaultCategory cat)) st1 = fp
  rcases fp with ⟨pr, st2⟩
  cases pr with
  | error e => cases e <;> rfl
  | ok p? =>
    cases p? with
    | none => rfl
    | some p =>
      rcases hs : save_to_db env c p p.variants sid st2 with ⟨ok, st3⟩
      cases ok with
      | true => simp [hs]
      | false => simp [hs]

theorem cleanup_incomplete_fetchLog (st : St) :
    (cleanup_incomplete st).fetchLog = st.fetchLog := rfl

theorem map_itemUrl_bare (l : List String) : (l.map UrlItem.bare).map itemUrl = l := by
  rw [List.map_map]
  have : (itemUrl ∘ UrlItem.bare) = id := by
    funext u
    rfl
  rw [this, List.map_id]

/-! ### C1: the confirmation gate in one-catalog mode -/

/-- C1: in one-catalog mode with no cancellation, a walker result of more
than 5 URLs persists the pending list, sets the session to
awaiting_confirmation and returns with no product fetched or stored; a
result of at most 5 URLs never passes through awaiting_confirmation and
goes straight to per-item ingestion (every discovered URL is fetched). -/
theorem parse_catalog_confirmation_gate (env : Env) (c : Cancel) (cu : String)
    (cat : Option String) (mp mP : Option Int) (sid : String) (st : St)
    (hsid : sid ≠ "") (hcu : cu ≠ "") (hc : ∀ t, c t = false) :
    ∃ r st', parse_catalog env c (some cu) cat mp mP sid none st = .ok (r, st') ∧
      (5 < (walkerUrls env cu mp mP).length →
        sessionStatus sid st'.db = some "awaiting_confirmation" ∧
        sessionPending sid st'.db =
          some (some ((walkerUrls env cu mp mP).map UrlItem.bare)) ∧
        st'.db.products = st.db.products ∧
        st'.db.variants = st.db.variants ∧
        st'.fetchLog = st.fetchLog) ∧
      ((walkerUrls env cu mp mP).length ≤ 5 →
        (∀ e ∈ st'.statusTrace.drop st.statusTrace.length,
          e.2 ≠ "awaiting_confirmation") ∧
        st'.fetchLog = st.fetchLog ++ walkerUrls env cu mp mP) := by
  have heq := parse_catalog_one_catalog env c cu cat mp mP sid st hsid hcu (hc _)
  simp only [] at heq
  have hfcu := fetch_catalog_page_cancel_free env c cu cat mp mP
    ({ update_session_status sid "in_progress" none (some "collecting_urls") none st
       with tick := st.tick + 1 }) hc
  have hfcs := fetch_catalog_page_state env c cu cat mp mP
    ({ update_session_status sid "in_progress" none (some "collecting_urls") none st
       with tick := st.tick + 1 })
  simp only [] at hfcu hfcs
  by_cases hlen : 5 < (walkerUrls env cu mp mP).length
  · rw [if_pos (by rw [hfcu]; exact hlen)] at heq
    refine ⟨_, _, heq, fun _ => ?_, fun hle => absurd hlen (not_lt.mpr hle)⟩
    rw [hfcu]
    refine ⟨sessionStatus_update _ _ _ _ _ _, ?_, ?_, ?_, ?_⟩
    · exact sessionPending_update _ _ _ _ _ _ (by
        intro hnil
        rw [List.map_eq_nil_iff] at hnil
        rw [hnil] at hlen
        simp at hlen)
    · rw [update_session_status_products, hfcs.1]
      rfl
    · rw [update_session_status_variants, hfcs.1]
      rfl
    · rw [update_session_status_fetchLog, hfcs.2.1]
      rfl
  · rw [if_neg (by rw [hfcu]; exact hlen)] at heq
    by_cases hurls : walkerUrls env cu mp mP = []
    · have hmapnil : ((fetch_catalog_page env c cu cat mp mP
          ({ update_session_status sid "in_progress" none (some "collecting_urls") none st
             with tick := st.tick + 1 })).1.map UrlItem.bare) = [] := by
        rw [hfcu, hurls]
        rfl
      rw [hmapnil] at heq
      have hppu : parse_product_urls env c [] cat sid
          (fetch_catalog_page env c cu cat mp mP
            ({ update_session_status sid "in_progress" none (some "collecting_urls") none st
               with tick := st.tick + 1 })).2 = .error PyExc.valueError := by
        unfold parse_product_urls
        rw [if_neg hsid]
        rfl
      rw [hppu] at heq
      refine ⟨_, _, heq, fun h5 => absurd h5 (by rw [hurls]; simp), fun _ => ?_⟩
      constructor
      · intro e he
        rw [cleanup_incomplete_trace, update_session_status_trace, hfcs.2.2,
          update_session_status_trace, List.append_assoc,
          List.drop_left] at he
        simp only [List.cons_append, List.nil_append, List.mem_cons,
          List.mem_singleton] at he
        rcases he with he | he | he
        · rw [he]; simp
        · rw [he]; simp
        · exact absurd he (by simp)
      · rw [cleanup_incomplete_fetchLog, update_session_status_fetchLog, hfcs.2.1,
          update_session_status_fetchLog, hurls]
        simp
    · have hmapne : ((fetch_catalog_page env c cu cat mp mP
          ({ update_session_status sid "in_progress" none (some "collecting_urls") none st
             with tick := st.tick + 1 })).1.map UrlItem.bare) ≠ [] := by
        rw [hfcu]
        simpa using hurls
      obtain ⟨r, stP, hppu, hPtrace, hPsess, hPlog⟩ :=
        parse_product_urls_cancel_free env c _ cat sid _ hsid hmapne hc
      rw [hppu] at heq
      have hmaps : ((fetch_catalog_page env c cu cat mp mP
          ({ update_session_status sid "in_progress" none (some "collecting_urls") none st
             with tick := st.tick + 1 })).1.map UrlItem.bare).map itemUrl =
          walkerUrls env cu mp mP := by
        rw [map_itemUrl_bare]
        exact hfcu
      simp only [] at hmaps
      have hlogP : stP.fetchLog = st.fetchLog ++ walkerUrls env cu mp mP := by
        rw [hPlog, hfcs.2.1, update_session_status_fetchLog, hmaps]
      have htraceP : stP.statusTrace =
          st.statusTrace ++ [(sid, "in_progress")] := by
        rw [hPtrace, hfcs.2.2, update_session_status_trace]
      by_cases hrs : r.success = true
      · have heq2 : parse_catalog env c (some cu) cat mp mP sid none st =
            .ok (r, update_session_status sid "completed" none (some "done") none stP) := by
          rw [heq]
          simp [hrs]
        refine ⟨_, _, heq2, fun h5 => absurd h5 hlen, fun _ => ⟨?_, ?_⟩⟩
        · intro e he
          rw [update_session_status_trace, htraceP, List.append_assoc,
            List.drop_left] at he
          simp only [List.cons_append, List.nil_append, List.mem_cons,
            List.mem_singleton] at he
          rcases he with he | he | he
          · rw [he]; simp
          · rw [he]; simp
          · exact absurd he (by simp)
        · rw [update_session_status_fetchLog, hlogP]
      · have heq2 : parse_catalog env c (some cu) cat mp mP sid none st =
            .ok (r, stP) := by
          rw [heq]
          simp [hrs]
        refine ⟨_, _, heq2, fun h5 => absurd h5 hlen, fun _ => ⟨?_, ?_⟩⟩
        · intro e he
          rw [htraceP, List.drop_left] at he
          simp only [List.mem_singleton] at he
          rw [he]
          simp
        · exact hlogP

/-- Witness for C1 at a concrete input: a six-product catalog pauses for
confirmation with the six URLs persisted and nothing fetched or stored. -/
theorem parse_catalog_confirmation_gate_witness :
    ∃ r st', parse_catalog env6 cF (some "cat") none none none "s" none st0 = .ok (r, st') ∧
      (5 < (walkerUrls env6 "cat" none none).length →
        sessionStatus "s" st'.db = some "awaiting_confirmation" ∧
        sessionPending "s" st'.db =
          some (some ((walkerUrls env6 "cat" none none).map UrlItem.bare)) ∧
        st'.db.products = st0.db.products ∧
        st'.db.variants = st0.db.variants ∧
        st'.fetchLog = st0.fetchLog) ∧
      ((walkerUrls env6 "cat" none none).length ≤ 5 →
        (∀ e ∈ st'.statusTrace.drop st0.statusTrace.length,
          e.2 ≠ "awaiting_confirmation") ∧
        st'.fetchLog = st0.fetchLog ++ walkerUrls env6 "cat" none none) :=
  parse_catalog_confirmation_gate env6 cF "cat" none none none "s" st0
    (by decide) (by decide) (fun _ => rfl)

theorem sessionStatus_eq_of_sessions (sid : String) (d1 d2 : Db)
    (h : d1.sessions = d2.sessions) : sessionStatus sid d1 = sessionStatus sid d2 := by
  unfold sessionStatus
  rw [h]

/-! ### C4: an empty walker result drives the session to error -/

/-- C4 (amended): the walker returns an empty harvest as an ordinary
value, but in one-catalog mode `parse_catalog` hands the empty list to
`parse_product_urls`, whose input validation raises `ValueError`; the
generic exception handler then sets the session status to `error` — an
empty discovery result does transition the session to error. -/
theorem parse_catalog_empty_result_error (env : Env) (c : Cancel) (cu : String)
    (cat : Option String) (mp mP : Option Int) (sid : String) (st : St)
    (hsid : sid ≠ "") (hcu : cu ≠ "") (hc : ∀ t, c t = false)
    (hempty : walkerUrls env cu mp mP = []) :
    ∃ r st', parse_catalog env c (some cu) cat mp mP sid none st = .ok (r, st') ∧
      sessionStatus sid st'.db = some "error" ∧
      r.success = false ∧ r.message = "Unexpected error" := by
  have heq := parse_catalog_one_catalog env c cu cat mp mP sid st hsid hcu (hc _)
  simp only [] at heq
  have hfcu := fetch_catalog_page_cancel_free env c cu cat mp mP
    ({ update_session_status sid "in_progress" none (some "collecting_urls") none st
       with tick := st.tick + 1 }) hc
  simp only [] at hfcu
  rw [if_neg (by rw [hfcu, hempty]; simp)] at heq
  have hmapnil : ((fetch_catalog_page env c cu cat mp mP
      ({ update_session_status sid "in_progress" none (some "collecting_urls") none st
         with tick := st.tick + 1 })).1.map UrlItem.bare) = [] := by
    rw [hfcu, hempty]
    rfl
  simp only [] at hmapnil
  rw [hmapnil] at heq
  have hppu : parse_product_urls env c [] cat sid
      (fetch_catalog_page env c cu cat mp mP
        ({ update_session_status sid "in_progress" none (some "collecting_urls") none st
           with tick := st.tick + 1 })).2 = .error PyExc.valueError := by
    unfold parse_product_urls
    rw [if_neg hsid]
    rfl
  simp only [] at hppu
  rw [hppu] at heq
  refine ⟨_, _, heq, ?_, rfl, rfl⟩
  rw [sessionStatus_eq_of_sessions sid _ _ (cleanup_incomplete_sessions _)]
  exact sessionStatus_update _ _ _ _ _ _

/-- Witness for C4's amended theorem at a concrete input. -/
theorem parse_catalog_empty_result_error_witness :
    ∃ r st', parse_catalog env0 cF (some "cat") none none none "s" none st0 = .ok (r, st') ∧
      sessionStatus "s" st'.db = some "error" ∧
      r.success = false ∧ r.message = "Unexpected error" :=
  parse_catalog_empty_result_error env0 cF "cat" none none none "s" st0
    (by decide) (by decide) (fun _ => rfl) (by decide)

/-- Counterexample to C4 as stated: a run whose walker found no rows at
all ends with the session persisted as error. -/
theorem parse_catalog_empty_result_counterexample :
    walkerUrls env0 "cat" none none = [] ∧
    runStatus "s" c4run = some (some "error") := by
  decide

/-! ### C5: partial failures continue the loop but never finalize as complete -/

/-- C5 (amended): per-item failures are counted and never abort the
ingestion loop — every discovered URL is still attempted — and they never
set the session to error; but the final `completed` write happens only
when the overall result is a success: on a failed run the session keeps
its `in_progress` status, and a single-item run whose page is unparsable
(sentinel title, rejected by the storage gateway) reports failure with
the session left `in_progress`, not complete and not error. -/
theorem parse_catalog_partial_failure (env : Env) (c : Cancel) (cu : String)
    (cat : Option String) (mp mP : Option Int) (sid : String) (st : St)
    (u : String) (p : Product)
    (hsid : sid ≠ "") (hcu : cu ≠ "") (hc : ∀ t, c t = false)
    (hne : walkerUrls env cu mp mP ≠ [])
    (hu : u ≠ "") (hp : env.fetchProduct u = .ok p)
    (hbad : titleInvalid p.title = true) :
    (∃ r st', parse_catalog env c (some cu) cat mp mP sid none st = .ok (r, st') ∧
      ((walkerUrls env cu mp mP).length ≤ 5 →
        st'.fetchLog = st.fetchLog ++ walkerUrls env cu mp mP ∧
        sessionStatus sid st'.db =
          some (if r.success then "completed" else "in_progress"))) ∧
    (∃ r st', parse_catalog env c none cat mp mP sid (some u) st = .ok (r, st') ∧
      r.success = false ∧ r.products_processed = 0 ∧
      sessionStatus sid st'.db = some "in_progress") := by
  constructor
  · have heq := parse_catalog_one_catalog env c cu cat mp mP sid st hsid hcu (hc _)
    simp only [] at heq
    have hfcu := fetch_catalog_page_cancel_free env c cu cat mp mP
      ({ update_session_status sid "in_progress" none (some "collecting_urls") none st
         with tick := st.tick + 1 }) hc
    have hfcs := fetch_catalog_page_state env c cu cat mp mP
      ({ update_session_status sid "in_progress" none (some "collecting_urls") none st
         with tick := st.tick + 1 })
    simp only [] at hfcu hfcs
    by_cases hlen : 5 < (walkerUrls env cu mp mP).length
    · rw [if_pos (by rw [hfcu]; exact hlen)] at heq
      exact ⟨_, _, heq, fun hle => absurd hlen (not_lt.mpr hle)⟩
    · rw [if_neg (by rw [hfcu]; exact hlen)] at heq
      have hmapne : ((fetch_catalog_page env c cu cat mp mP
          ({ update_session_status sid "in_progress" none (some "collecting_urls") none st
             with tick := st.tick + 1 })).1.map UrlItem.bare) ≠ [] := by
        rw [hfcu]
        simpa using hne
      obtain ⟨r, stP, hppu, hPtrace, hPsess, hPlog⟩ :=
        parse_product_urls_cancel_free env c _ cat sid _ hsid hmapne hc
      rw [hppu] at heq
      have hmaps : ((fetch_catalog_page env c cu cat mp mP
          ({ update_session_status sid "in_progress" none (some "collecting_urls") none st
             with tick := st.tick + 1 })).1.map UrlItem.bare).map itemUrl =
          walkerUrls env cu mp mP := by
        rw [map_itemUrl_bare]
        exact hfcu
      simp only [] at hmaps
      have hlogP : stP.fetchLog = st.fetchLog ++ walkerUrls env cu mp mP := by
        rw [hPlog, hfcs.2.1, update_session_status_fetchLog, hmaps]
      by_cases hrs : r.success = true
      · have heq2 : parse_catalog env c (some cu) cat mp mP sid none st =
            .ok (r, update_session_status sid "completed" none (some "done") none stP) := by
          rw [heq]
          simp [hrs]
        refine ⟨_, _, heq2, fun _ => ⟨?_, ?_⟩⟩
        · rw [update_session_status_fetchLog, hlogP]
        · rw [hrs]
          simp only [if_true]
          exact sessionStatus_update _ _ _ _ _ _
      · have heq2 : parse_catalog env c (some cu) cat mp mP sid none st =
            .ok (r, stP) := by
          rw [heq]
          simp [hrs]
        refine ⟨_, _, heq2, fun _ => ⟨hlogP, ?_⟩⟩
        have hr0 : r.success = false := by
          simpa using hrs
        rw [hr0]
        simp only [Bool.false_eq_true, if_false]
        rw [sessionStatus_eq_of_sessions sid _ _ hPsess,
          sessionStatus_eq_of_sessions sid _ _ (congrArg Db.sessions hfcs.1)]
        exact sessionStatus_update _ _ _ _ _ _
  · have heq := parse_catalog_single_item env c u cat mp mP sid st hsid hu (hc _)
    simp only [] at heq
    have hval := fetch_product_page_val env c u (some (defaultCategory cat))
      ({ update_session_status sid "in_progress" none (some "collecting_urls") none st
         with tick := st.tick + 1 }) (hc _)
    simp only [] at hval
    rw [hp] at hval
    have hbad2 : titleInvalid
        ({ p with category := some (defaultCategory cat) } : Product).title = true := hbad
    have hsave := save_to_db_invalid_title env c
      ({ p with category := some (defaultCategory cat) })
      ({ p with category := some (defaultCategory cat) } : Product).variants sid
      ((fetch_product_page env c u (some (defaultCategory cat))
        ({ update_session_status sid "in_progress" none (some "collecting_urls") none st
           with tick := st.tick + 1 })).2) hbad2
    simp only [] at hsave
    have hsta := fetch_product_page_state env c u (some (defaultCategory cat))
      ({ update_session_status sid "in_progress" none (some "collecting_urls") none st
         with tick := st.tick + 1 })
    simp only [] at hsta
    have heq2 : parse_catalog env c none cat mp mP sid (some u) st =
        .ok ({ success := false, products_processed := 0, message := "Error saving product" },
          { (fetch_product_page env c u (some (defaultCategory cat))
              ({ update_session_status sid "in_progress" none (some "collecting_urls") none st
                 with tick := st.tick + 1 })).2 with
            tick := (fetch_product_page env c u (some (defaultCategory cat))
              ({ update_session_status sid "in_progress" none (some "collecting_urls") none st
                 with tick := st.tick + 1 })).2.tick + 1 }) := by
      rw [heq, hval]
      simp only []
      rw [hsave]
      rfl
    refine ⟨_, _, heq2, rfl, rfl, ?_⟩
    have hsess : ({ (fetch_product_page env c u (some (defaultCategory cat))
        ({ update_session_status sid "in_progress" none (some "collecting_urls") none st
           with tick := st.tick + 1 })).2 with
        tick := (fetch_product_page env c u (some (defaultCategory cat))
          ({ update_session_status sid "in_progress" none (some "collecting_urls") none st
             with tick := st.tick + 1 })).2.tick + 1 } : St).db.sessions =
        (update_session_status sid "in_progress" none (some "collecting_urls") none st).db.sessions := by
      have hx := congrArg Db.sessions hsta.1
      simpa using hx
    rw [sessionStatus_eq_of_sessions sid _ _ hsess]
    exact sessionStatus_update _ _ _ _ _ _

/-- Witness for C5's amended theorem at a concrete input: a two-product
catalog of unparsable pages, and a single unparsable item. -/
theorem parse_catalog_partial_failure_witness :
    (∃ r st', parse_catalog envC cF (some "cat") none none none "s" none st0 = .ok (r, st') ∧
      ((walkerUrls envC "cat" none none).length ≤ 5 →
        st'.fetchLog = st0.fetchLog ++ walkerUrls envC "cat" none none ∧
        sessionStatus "s" st'.db =
          some (if r.success then "completed" else "in_progress"))) ∧
    (∃ r st', parse_catalog envC cF none none none none "s" (some "u") st0 = .ok (r, st') ∧
      r.success = false ∧ r.products_processed = 0 ∧
      sessionStatus "s" st'.db = some "in_progress") :=
  parse_catalog_partial_failure envC cF "cat" none none none "s" st0 "u" (prodBad "u")
    (by decide) (by decide) (fun _ => rfl) (by decide) (by decide) rfl (by decide)

/-- Counterexample to C5 as stated: a single-item run whose extraction
yields only the sentinel title reports failure and the session stays
in_progress — it never transitions to the terminal complete state. -/
theorem parse_catalog_partial_failure_counterexample :
    runSuccess c5run = some false ∧
    runStatus "s" c5run = some (some "in_progress") ∧
    runStatus "s" c5run ≠ some (some "completed") ∧
    runStatus "s" c5run ≠ some (some "complete") := by
  decide

/-! ### C2: cancellation stops writes but the session never ends canceled -/

/-- C2 (amended): a cancellation flag reading true at an ingestion-loop
checkpoint makes the loop return at once — the state past that checkpoint
changes only by the flag read itself, so no further product or variant
writes occur — but the ingestion loop itself performs no session-status
write at all: it cannot set `canceled`, and a worker whose processed
items all succeeded later overwrites the externally written `canceled`
with `completed` (see the counterexample). -/
theorem ingestion_cancel_checkpoint :
    (∀ (env : Env) (c : Cancel) (cat : Option String) (sid : String)
       (item : UrlItem) (rest : List UrlItem) (acc : RunResult) (st : St),
      c st.tick = true →
      parseUrlsLoop env c cat sid (item :: rest) acc st =
        ({ acc with message := "Parsing canceled" }, true,
          { st with tick := st.tick + 1 })) ∧
    (∀ (env : Env) (c : Cancel) (cat : Option String) (sid : String)
       (items : List UrlItem) (acc : RunResult) (st : St),
      (parseUrlsLoop env c cat sid items acc st).2.2.statusTrace = st.statusTrace ∧
      (parseUrlsLoop env c cat sid items acc st).2.2.db.sessions = st.db.sessions) := by
  constructor
  · intro env c cat sid item rest acc st h
    simp [parseUrlsLoop, readCancel, h]
  · intro env c cat sid items acc st
    exact parseUrlsLoop_no_status env c cat sid items acc st

/-- Witness for C2's amended theorem at a concrete input: with the flag
already set, the loop over one pending item returns immediately with the
database untouched, and the loop never writes a session status. -/
theorem ingestion_cancel_checkpoint_witness :
    parseUrlsLoop env2 cT none "s" [UrlItem.bare "u1"]
      { success := true, products_processed := 0, message := "" } st0 =
      ({ success := true, products_processed := 0, message := "Parsing canceled" },
        true, { st0 with tick := 1 }) ∧
    (parseUrlsLoop env2 cF none "s" [UrlItem.bare "u1"]
      { success := true, products_processed := 0, message := "" } st0).2.2.statusTrace =
      st0.statusTrace :=
  ⟨ingestion_cancel_checkpoint.1 env2 cT none "s" (UrlItem.bare "u1") []
      { success := true, products_processed := 0, message := "" } st0 rfl,
   (ingestion_cancel_checkpoint.2 env2 cF none "s" [UrlItem.bare "u1"]
      { success := true, products_processed := 0, message := "" } st0).1⟩

/-- Counterexample to C2 as stated: the flag is set mid-ingestion (after
item one commits, before item two's checkpoint — the second URL is never
fetched and only one product row exists), yet the session's persisted
status ends as completed, not canceled. -/
theorem ingestion_cancel_counterexample :
    runStatus "s" c2run = some (some "completed") ∧
    runStatus "s" c2run ≠ some (some "canceled") ∧
    runFetchLog c2run = some ["u1"] ∧
    runProductCount c2run = some 1 := by
  decide

theorem parse_product_urls_ok (env : Env) (c : Cancel) (items : List UrlItem)
    (cat : Option String) (sid : String) (st : St)
    (hsid : sid ≠ "") (hne : items ≠ []) :
    ∃ r st', parse_product_urls env c items cat sid st = .ok (r, st') := by
  unfold parse_product_urls
  rw [if_neg hsid, if_neg hne]
  rcases parseUrlsLoop env c cat sid items
      { success := true, products_processed := 0, message := "" } st with ⟨r, e, st'⟩
  cases e with
  | true => exact ⟨r, st', rfl⟩
  | false =>
    by_cases hcond : (r.products_processed = items.length && r.success) = true
    · refine ⟨{ r with message := "Successfully processed products" }, st', ?_⟩
      simp [hcond]
    · refine ⟨{ r with message := "Processed products with errors" }, st', ?_⟩
      simp only [Bool.not_eq_true] at hcond
      simp [hcond]

theorem parseUrlsLoop_singleton_processed (env : Env) (c : Cancel)
    (cat : Option String) (sid : String) (i : UrlItem) (acc : RunResult) (st : St) :
    ((parseUrlsLoop env c cat sid [i] acc st).1).products_processed ≤
      acc.products_processed + 1 := by
  simp only [parseUrlsLoop, readCancel]
  by_cases h : c st.tick = true
  · simp [h]
  · simp only [if_neg h]
    rcases fetch_product_page env c (itemUrl i) (itemCat cat i)
        { st with tick := st.tick + 1 } with ⟨pr, st2⟩
    cases pr with
    | error e => simp [parseUrlsLoop]
    | ok p? =>
      cases p? with
      | none => simp [parseUrlsLoop]
      | some p =>
        dsimp only
        rcases save_to_db env c p p.variants sid st2 with ⟨ok, st3⟩
        cases ok <;> simp [parseUrlsLoop]

theorem parse_product_urls_singleton_processed (env : Env) (c : Cancel) (i : UrlItem)
    (cat : Option String) (sid : String) (st : St) (hsid : sid ≠ "") :
    ∀ r st', parse_product_urls env c [i] cat sid st = .ok (r, st') →
      r.products_processed ≤ 1 := by
  unfold parse_product_urls
  rw [if_neg hsid, if_neg (by simp : ([i] : List UrlItem) ≠ [])]
  rcases hl : parseUrlsLoop env c cat sid [i]
      { success := true, products_processed := 0, message := "" } st with ⟨r0, e, st0⟩
  have hb := parseUrlsLoop_singleton_processed env c cat sid i
    { success := true, products_processed := 0, message := "" } st
  rw [hl] at hb
  simp only [Prod.fst] at hb
  intro r st' h
  cases e with
  | true =>
    cases h
    exact hb
  | false =>
    by_cases hcond : (r0.products_processed = 1 && r0.success) = true
    · simp only [List.length_singleton, hcond, if_pos rfl, if_true] at h
      cases h
      exact hb
    · simp only [List.length_singleton, hcond, Bool.false_eq_true, if_false] at h
      cases h
      exact hb

/-! ### C3: the all-catalogs gate fires only after items are processed -/

/-- C3 (amended): in all-catalogs mode every discovered URL is ingested
immediately; the confirmation gate is applied to the running count of
successfully processed items after each item, so the loop pauses into
awaiting_confirmation exactly when that count first exceeds 5 — at six
already-processed items (starting from a total of at most 5) — instead of
pausing before processing anything. -/
theorem allCatalogs_gate_after_processing (env : Env) (c : Cancel) (catName : String)
    (sid : String) (r0 : RunResult) (allUrls urls : List String) (total : Nat) (st : St)
    (hsid : sid ≠ "") (htot : total ≤ 5) :
    ∀ fl st', allCatUrlsLoop env c catName sid r0 allUrls urls total st = .inl (fl, st') →
      (∃ total1, total1 = 6 ∧
        fl = BodyFlow.ret { r0 with products_processed := total1,
                                    message := "Paused for confirmation" }) ∧
      sessionStatus sid st'.db = some "awaiting_confirmation" := by
  induction urls generalizing total st with
  | nil =>
    intro fl st' h
    simp [allCatUrlsLoop] at h
  | cons u rest ih =>
    intro fl st' h
    obtain ⟨r2, st2, hok⟩ := parse_product_urls_ok env c [UrlItem.withCat u catName]
      (some catName) sid st hsid (by simp)
    have hproc := parse_product_urls_singleton_processed env c (UrlItem.withCat u catName)
      (some catName) sid st hsid r2 st2 hok
    simp only [allCatUrlsLoop, hok] at h
    by_cases hgate : total + r2.products_processed > 5
    · rw [if_pos hgate] at h
      have h6 : total + r2.products_processed = 6 := by omega
      rw [h6] at h
      cases h
      exact ⟨⟨6, rfl, rfl⟩, sessionStatus_update _ _ _ _ _ _⟩
    · rw [if_neg hgate] at h
      exact ih (total + r2.products_processed) st2 (by omega) fl st' h

/-- Witness for C3's amended theorem: over the seven-product category the
per-URL loop pauses with exactly six items already processed. -/
theorem allCatalogs_gate_after_processing_witness :
    ∃ fl st', allCatUrlsLoop env7 cF "c" "s" r0run l7 l7 0 st0 = .inl (fl, st') ∧
      (∃ total1, total1 = 6 ∧
        fl = BodyFlow.ret { r0run with products_processed := total1,
                                       message := "Paused for confirmation" }) ∧
      sessionStatus "s" st'.db = some "awaiting_confirmation" := by
  rcases hres : allCatUrlsLoop env7 cF "c" "s" r0run l7 l7 0 st0 with p | p
  · rcases p with ⟨fl, st'⟩
    have h := allCatalogs_gate_after_processing env7 cF "c" "s" r0run l7 l7 0 st0
      (by decide) (by decide) fl st' hres
    exact ⟨fl, st', rfl, h.1, h.2⟩
  · have hL : (allCatUrlsLoop env7 cF "c" "s" r0run l7 l7 0 st0).isLeft = true := by
      decide
    rw [hres] at hL
    simp at hL

/-- Counterexample to C3 as stated: the all-catalogs run over a
seven-product category does pause into awaiting_confirmation, but only
after writing six product rows — not before processing anything. -/
theorem allCatalogs_gate_counterexample :
    runStatus "s" c3run = some (some "awaiting_confirmation") ∧
    runProductCount c3run = some 6 ∧
    runProcessed c3run = some 6 := by
  decide

/-! ### C10: all-catalogs mode with no product limit crashes to error -/

/-- C10: in all-catalogs mode with `max_products = None`, the per-category
walk computes `max_products - total_processed` unguarded; on any run that
reaches the first category this subtraction raises `TypeError`, the
generic handler catches it, and the session is persisted as `error`
instead of the walk proceeding with an unbounded limit. -/
theorem allCatalogs_none_limit_error (env : Env) (c : Cancel) (mp : Option Int)
    (sid : String) (st : St)
    (hsid : sid ≠ "") (hc : ∀ t, c t = false) (hcats : env.categories ≠ []) :
    ∃ r st', parse_catalog env c none none mp none sid none st = .ok (r, st') ∧
      sessionStatus sid st'.db = some "error" ∧
      r.success = false ∧ r.message = "Unexpected error" := by
  unfold parse_catalog parseCatalogBody
  rw [if_neg hsid]
  simp only [readCancel, update_session_status_tick, hc, Bool.false_eq_true, if_false,
    optTruthy]
  rcases hcat : env.categories with _ | ⟨c0, cs⟩
  · exact absurd hcat hcats
  · simp only [allCatsLoop, readCancel, hc, Bool.false_eq_true, if_false, pySubOptInt]
    refine ⟨_, _, rfl, ?_, rfl, rfl⟩
    rw [sessionStatus_eq_of_sessions sid _ _ (cleanup_incomplete_sessions _)]
    exact sessionStatus_update _ _ _ _ _ _

/-- Witness for C10 at a concrete input: one discovered category, no
product limit — the run ends with the session persisted as error. -/
theorem allCatalogs_none_limit_error_witness :
    ∃ r st', parse_catalog env7 cF none none none none "s" none st0 = .ok (r, st') ∧
      sessionStatus "s" st'.db = some "error" ∧
      r.success = false ∧ r.message = "Unexpected error" :=
  allCatalogs_none_limit_error env7 cF none "s" st0
    (by decide) (fun _ => rfl) (by decide)
